import Mathlib

/-!
# Verification of the fdt-rs flattened device tree parser

A shallow embedding of the fdt-rs library (a zero-allocation parser for the
Flattened Device Tree binary format) together with proofs about its header
validation, token parser, unindexed iterators, reserve-entry iterator,
property value readers and the index builder.

Buffers are modelled as `List Nat` of byte values; machine `usize` arithmetic
is modelled by `Nat` (the quantities involved are buffer offsets and lengths,
which cannot overflow in the Rust code for any buffer that fits in memory).
Rust `Result` is modelled by `Except`; panics (slice-index panics, `unwrap`
on `Err`, and out-of-bounds raw-pointer reads, which are undefined behaviour)
are modelled by explicit `panicked` outcomes.
-/

/-- A byte buffer: a list of byte values (each `< 256` in intended use). -/
abbrev Buf := List Nat

instance exceptDecEq {ε α : Type} [DecidableEq ε] [DecidableEq α] : DecidableEq (Except ε α)
  | .error e, .error f =>
    if h : e = f then isTrue (by subst h; rfl) else isFalse (fun c => h (Except.error.inj c))
  | .error _, .ok _ => isFalse (fun c => Except.noConfusion c)
  | .ok _, .error _ => isFalse (fun c => Except.noConfusion c)
  | .ok a, .ok b =>
    if h : a = b then isTrue (by subst h; rfl) else isFalse (fun c => h (Except.ok.inj c))

/-- Error kinds, from `src/error.rs` (`DevTreeError`).  The `Utf8Error`
payload of `StrError` is dropped. -/
inductive DevTreeError where
  | invalidMagicNumber
  | invalidOffset
  | parseError
  | strError
  | versionNotSupported
  | notEnoughMemory
  | eof
deriving DecidableEq, Repr

/-- Modelled from the spec: `SliceRead::read_be_u32` (the byte-slice
primitive module `priv_util`/`buf_util` is not under `src/`).  Per spec
sections 2 and 4.7: a big-endian `u32` load at `off`, succeeding iff
`off + 4 ≤ len`.  `none` models the `SliceReadError` case. -/
def read_be_u32 (buf : Buf) (off : Nat) : Option Nat :=
  if off + 4 ≤ buf.length then
    some (buf.getD off 0 * 16777216 + buf.getD (off + 1) 0 * 65536 +
          buf.getD (off + 2) 0 * 256 + buf.getD (off + 3) 0)
  else none

/-- Modelled from the spec: `SliceRead::read_be_u64`, a big-endian `u64`
load at `off`, succeeding iff `off + 8 ≤ len`. -/
def read_be_u64 (buf : Buf) (off : Nat) : Option Nat :=
  if off + 8 ≤ buf.length then
    some (buf.getD off 0 * 72057594037927936 + buf.getD (off + 1) 0 * 281474976710656 +
          buf.getD (off + 2) 0 * 1099511627776 + buf.getD (off + 3) 0 * 4294967296 +
          buf.getD (off + 4) 0 * 16777216 + buf.getD (off + 5) 0 * 65536 +
          buf.getD (off + 6) 0 * 256 + buf.getD (off + 7) 0)
  else none

/-- Modelled from the spec: `SliceRead::read_bstring0`, a zero-terminated
byte-string read from `off`; fails when no NUL byte occurs before the end
of the buffer.  Returns the bytes before the NUL. -/
def read_bstring0 (buf : Buf) (off : Nat) : Option (List Nat) :=
  if (buf.drop off).contains 0 then
    some ((buf.drop off).takeWhile (fun b => b ≠ 0))
  else none

/-- Modelled from the spec: `SliceRead::nread_bstring0`, a zero-terminated
byte-string read of at most `n` payload bytes (the node-name bound of
spec section 3: 31 byte payload plus NUL). -/
def nread_bstring0 (buf : Buf) (off n : Nat) : Option (List Nat) :=
  if ((buf.drop off).take (n + 1)).contains 0 then
    some (((buf.drop off).take (n + 1)).takeWhile (fun b => b ≠ 0))
  else none

/-- Modelled from the spec: `FDT_MAGIC` (0xd00dfeed). -/
def FDT_MAGIC : Nat := 0xd00dfeed

/-- Modelled from the spec: maximum node name length (31 byte payload plus
NUL terminator), `spec::MAX_NODE_NAME_LEN`. -/
def MAX_NODE_NAME_LEN : Nat := 32

/-- Modelled from the spec: `size_of::<fdt_header>()`: ten big-endian
`u32` fields (spec section 3). -/
def MIN_HEADER_SIZE : Nat := 40

/-- `verify_magic` from `src/base/tree.rs`: fails with `InvalidMagicNumber`
when the first big-endian word is not `FDT_MAGIC` (a read failure becomes
`ParseError` via `From<SliceReadError>`). -/
def verify_magic (buf : Buf) : Except DevTreeError Unit :=
  match read_be_u32 buf 0 with
  | none => .error .parseError
  | some v => if v ≠ FDT_MAGIC then .error .invalidMagicNumber else .ok ()

/-- `read_totalsize` from `src/base/tree.rs`: verify the magic, then read
the `totalsize` header field (offset 4).  The Rust pointer-alignment
`assert!` concerns the buffer's machine address, which the byte-level model
takes as given. -/
def read_totalsize (buf : Buf) : Except DevTreeError Nat :=
  match verify_magic buf with
  | .error e => .error e
  | .ok _ =>
    match read_be_u32 buf 4 with
    | none => .error .parseError
    | some v => .ok v

/-- The `DevTree::totalsize` accessor (header field at offset 4).  The Rust
code unwraps the read; the default is never taken once `DevTree::new`
succeeded. -/
def totalsize (buf : Buf) : Nat := (read_be_u32 buf 4).getD 0

/-- The `DevTree::off_dt_struct` accessor (header field at offset 8). -/
def off_dt_struct (buf : Buf) : Nat := (read_be_u32 buf 8).getD 0

/-- The `DevTree::off_dt_strings` accessor (header field at offset 12). -/
def off_dt_strings (buf : Buf) : Nat := (read_be_u32 buf 12).getD 0

/-- The `DevTree::off_mem_rsvmap` accessor (header field at offset 16). -/
def off_mem_rsvmap (buf : Buf) : Nat := (read_be_u32 buf 16).getD 0

/-- `verify_offset_aligned::<u32>` from `src/base/tree.rs`. -/
def verify_offset_aligned4 (off : Nat) : Except DevTreeError Nat :=
  if off % 4 = 0 then .ok off else .error .parseError

/-- `DevTree::new` from `src/base/tree.rs` lines 112-122: read the total
size (verifying the magic), fail with `ParseError` when `totalsize` is
LESS THAN the buffer length, then check 4-byte alignment of
`off_mem_rsvmap` and `off_dt_struct`. -/
def devtree_new (buf : Buf) : Except DevTreeError Unit :=
  match read_totalsize buf with
  | .error e => .error e
  | .ok ts =>
    if ts < buf.length then .error .parseError
    else
      match verify_offset_aligned4 (off_mem_rsvmap buf) with
      | .error e => .error e
      | .ok _ =>
        match verify_offset_aligned4 (off_dt_struct buf) with
        | .error e => .error e
        | .ok _ => .ok ()

/-! ## Token parser (`src/base/parse.rs`) -/

/-- `ParsedTok` from `src/base/parse.rs`. -/
inductive ParsedTok where
  | beginNode (name : List Nat)
  | propTok (prop_buf : List Nat) (name_offset : Nat)
  | endNode
  | nop
deriving DecidableEq, Repr

/-- Outcome of `next_devtree_token`.  `failed` and `endTok` carry the
offset value left behind in the caller's cursor (the code advances the
offset before some failure paths). `panicked` models a slice-index panic
or an out-of-bounds raw-pointer read (undefined behaviour). -/
inductive TokStep where
  | panicked
  | failed (off : Nat)
  | endTok (off : Nat)
  | ok (t : ParsedTok) (off : Nat)
deriving DecidableEq, Repr

/-- Round up to the next multiple of 4; models
`ptr.add(off).align_offset(4)` applied to a 4-byte-aligned base pointer. -/
def align_up4 (x : Nat) : Nat := ((x + 3) / 4) * 4

/-- `next_devtree_token` from `src/base/parse.rs` lines 17-80.  Token
values per the devicetree spec: BEGIN_NODE 1, END_NODE 2, PROP 3, NOP 4,
END 9 (the `FdtTok` enum lives in the missing `spec` module).  The PROP
arm indexes `buf[off]` (panics when out of range), reinterprets 8 bytes as
the property header (out-of-bounds is undefined behaviour, modelled as a
panic), slices the value (panics when out of range), and only then
validates `nameoff`. -/
def next_devtree_token (buf : Buf) (off : Nat) : TokStep :=
  match read_be_u32 buf off with
  | none => .failed off
  | some tokVal =>
    if tokVal = 1 then
      match nread_bstring0 buf (off + 4) (MAX_NODE_NAME_LEN - 1) with
      | none => .failed (off + 4)
      | some name => .ok (.beginNode name) (align_up4 (off + 4 + name.length + 1))
    else if tokVal = 3 then
      if buf.length ≤ off + 4 then .panicked
      else if buf.length < off + 12 then .panicked
      else
        let prop_len := (read_be_u32 buf (off + 4)).getD 0
        let name_offset := (read_be_u32 buf (off + 8)).getD 0
        if buf.length < off + 12 + prop_len then .panicked
        else if buf.length < name_offset then .failed (align_up4 (off + 12 + prop_len))
        else .ok (.propTok ((buf.drop (off + 12)).take prop_len) name_offset)
               (align_up4 (off + 12 + prop_len))
    else if tokVal = 2 then .ok .endNode (off + 4)
    else if tokVal = 4 then .ok .nop (off + 4)
    else if tokVal = 9 then .endTok (off + 4)
    else .failed (off + 4)

theorem read_be_u32_some_len {buf : Buf} {off v : Nat}
    (h : read_be_u32 buf off = some v) : off + 4 ≤ buf.length := by
  unfold read_be_u32 at h
  by_cases hb : off + 4 ≤ buf.length
  · exact hb
  · simp [hb] at h

theorem le_align_up4 (x : Nat) : x ≤ align_up4 x := by
  unfold align_up4; omega

theorem next_devtree_token_ok_bounds {buf : Buf} {off : Nat} {t : ParsedTok} {o : Nat}
    (h : next_devtree_token buf off = .ok t o) :
    off + 4 ≤ buf.length ∧ off < o := by
  unfold next_devtree_token at h
  cases hr : read_be_u32 buf off with
  | none => rw [hr] at h; exact absurd h (by simp)
  | some tokVal =>
    rw [hr] at h
    have hlen := read_be_u32_some_len hr
    refine ⟨hlen, ?_⟩
    by_cases h1 : tokVal = 1
    · simp only [h1, if_true] at h
      cases hn : nread_bstring0 buf (off + 4) (MAX_NODE_NAME_LEN - 1) with
      | none => rw [hn] at h; exact absurd h (by simp)
      | some name =>
        rw [hn] at h
        have : o = align_up4 (off + 4 + name.length + 1) := by
          injection h with _ h2; omega
        have := le_align_up4 (off + 4 + name.length + 1)
        omega
    · simp only [h1, if_false] at h
      by_cases h3 : tokVal = 3
      · simp only [h3, if_true] at h
        by_cases hb1 : buf.length ≤ off + 4
        · simp [hb1] at h
        · simp only [hb1, if_false] at h
          by_cases hb2 : buf.length < off + 12
          · simp [hb2] at h
          · simp only [hb2, if_false] at h
            by_cases hb3 : buf.length < off + 12 + (read_be_u32 buf (off + 4)).getD 0
            · simp [hb3] at h
            · simp only [hb3, if_false] at h
              by_cases hb4 : buf.length < (read_be_u32 buf (off + 8)).getD 0
              · simp [hb4] at h
              · simp only [hb4, if_false] at h
                have : o = align_up4 (off + 12 + (read_be_u32 buf (off + 4)).getD 0) := by
                  injection h with _ h2; omega
                have := le_align_up4 (off + 12 + (read_be_u32 buf (off + 4)).getD 0)
                omega
      · simp only [h3, if_false] at h
        by_cases h2 : tokVal = 2
        · simp only [h2, if_true] at h
          injection h with _ h4; omega
        · simp only [h2, if_false] at h
          by_cases h4 : tokVal = 4
          · simp only [h4, if_true] at h
            injection h with _ h5; omega
          · simp only [h4, if_false] at h
            by_cases h9 : tokVal = 9
            · simp [h9] at h
            · simp [h9] at h

/-! ## Unindexed iterator (`src/base/iters.rs`) -/

/-- State of `DevTreeIter`: the parse offset and
`current_prop_parent_off` (the offset of the most recent BEGIN_NODE while
a node is open). -/
structure DevTreeIterSt where
  offset : Nat
  parentOff : Option Nat
deriving DecidableEq, Repr

/-- A `DevTreeNode` handle: the raw name bytes, the offset of its
BEGIN_NODE token, and the `parse_iter` clone stored inside the handle
(positioned just after the BEGIN_NODE token). -/
structure NodeH where
  name : List Nat
  beginOff : Nat
  after : DevTreeIterSt
deriving DecidableEq, Repr

/-- A `DevTreeProp` handle: the owning node's BEGIN_NODE offset (the
`parent_iter` snapshot), the value slice and the name offset. -/
structure PropH where
  parentOff : Nat
  prop_buf : List Nat
  nameOff : Nat
deriving DecidableEq, Repr

/-- `DevTreeItem`. -/
inductive Item where
  | node (n : NodeH)
  | prop (p : PropH)
deriving DecidableEq, Repr

/-- Outcome of one `DevTreeIter::next` call: `halt` is a `None` return
(carrying the mutated iterator state), `item` a `Some`. -/
inductive ItemStep where
  | panicked
  | halt (st : DevTreeIterSt)
  | item (i : Item) (st : DevTreeIterSt)
deriving DecidableEq, Repr

/-- `DevTreeIter::next_devtree_item` from `src/base/iters.rs` lines
171-216: loop over tokens; BEGIN_NODE records the parent offset and
yields a node; PROP yields a property attached to the open node, or ends
iteration when no node is open; END_NODE clears the parent offset; NOP is
skipped; END and parse errors end iteration. -/
def next_devtree_item (buf : Buf) (st : DevTreeIterSt) : ItemStep :=
  match h : next_devtree_token buf st.offset with
  | .panicked => .panicked
  | .failed o => .halt ⟨o, st.parentOff⟩
  | .endTok o => .halt ⟨o, st.parentOff⟩
  | .ok (.beginNode name) o =>
    .item (.node ⟨name, st.offset, ⟨o, some st.offset⟩⟩) ⟨o, some st.offset⟩
  | .ok (.propTok pb noff) o =>
    match st.parentOff with
    | none => .halt ⟨o, none⟩
    | some po => .item (.prop ⟨po, pb, noff⟩) ⟨o, some po⟩
  | .ok .endNode o => next_devtree_item buf ⟨o, none⟩
  | .ok .nop o => next_devtree_item buf ⟨o, st.parentOff⟩
termination_by buf.length - st.offset
decreasing_by
  all_goals
    have hb := next_devtree_token_ok_bounds h
    omega

theorem next_devtree_item_lt {buf : Buf} {st : DevTreeIterSt} {i : Item} {s' : DevTreeIterSt}
    (h : next_devtree_item buf st = .item i s') :
    st.offset + 4 ≤ buf.length ∧ st.offset < s'.offset := by
  induction st using next_devtree_item.induct buf with
  | case1 st htok => rw [next_devtree_item, htok] at h; exact absurd h (by simp)
  | case2 st o htok => rw [next_devtree_item, htok] at h; exact absurd h (by simp)
  | case3 st o htok => rw [next_devtree_item, htok] at h; exact absurd h (by simp)
  | case4 st name o htok =>
    rw [next_devtree_item, htok] at h
    have hb := next_devtree_token_ok_bounds htok
    simp only [ItemStep.item.injEq] at h
    exact ⟨hb.1, by rw [← h.2]; exact hb.2⟩
  | case5 st pb noff o htok hpo =>
    rw [next_devtree_item, htok, hpo] at h; exact absurd h (by simp)
  | case6 st pb noff o htok po hpo =>
    rw [next_devtree_item, htok, hpo] at h
    have hb := next_devtree_token_ok_bounds htok
    simp only [ItemStep.item.injEq] at h
    exact ⟨hb.1, by rw [← h.2]; exact hb.2⟩
  | case7 st o htok ih =>
    rw [next_devtree_item, htok] at h
    have hb := next_devtree_token_ok_bounds htok
    have := ih h
    exact ⟨hb.1, by simp only at this; omega⟩
  | case8 st o htok ih =>
    rw [next_devtree_item, htok] at h
    have hb := next_devtree_token_ok_bounds htok
    have := ih h
    exact ⟨hb.1, by simp only at this; omega⟩

/-- How an item stream ends: cleanly (`None` returned) or by a panic. -/
inductive StreamEnd where
  | ended
  | panicked
deriving DecidableEq, Repr

/-- The full item sequence produced from a given iterator state, with the
way the stream ends. -/
def items_from (buf : Buf) (st : DevTreeIterSt) : List Item × StreamEnd :=
  match h : next_devtree_item buf st with
  | .panicked => ([], .panicked)
  | .halt _ => ([], .ended)
  | .item i s' =>
    let r := items_from buf s'
    (i :: r.1, r.2)
termination_by buf.length - st.offset
decreasing_by
  have hb := next_devtree_item_lt h
  omega

/-- The node-name sequence of an item list (node names are byte slices). -/
def node_names (items : List Item) : List (List Nat) :=
  items.filterMap fun i =>
    match i with
    | .node n => some n.name
    | .prop _ => none

theorem next_devtree_item_step_endNode {buf : Buf} {st : DevTreeIterSt} {o : Nat}
    (h : next_devtree_token buf st.offset = .ok .endNode o) :
    next_devtree_item buf st = next_devtree_item buf ⟨o, none⟩ := by
  rw [next_devtree_item]
  split <;> simp_all

theorem next_devtree_item_step_nop {buf : Buf} {st : DevTreeIterSt} {o : Nat}
    (h : next_devtree_token buf st.offset = .ok .nop o) :
    next_devtree_item buf st = next_devtree_item buf ⟨o, st.parentOff⟩ := by
  rw [next_devtree_item]
  split <;> simp_all

theorem items_from_eq_halt {buf : Buf} {st s : DevTreeIterSt}
    (h : next_devtree_item buf st = .halt s) :
    items_from buf st = ([], .ended) := by
  rw [items_from]
  split <;> simp_all

theorem items_from_eq_panicked {buf : Buf} {st : DevTreeIterSt}
    (h : next_devtree_item buf st = .panicked) :
    items_from buf st = ([], .panicked) := by
  rw [items_from]
  split <;> simp_all

theorem items_from_eq_item {buf : Buf} {st : DevTreeIterSt} {i : Item} {s' : DevTreeIterSt}
    (h : next_devtree_item buf st = .item i s') :
    items_from buf st = (i :: (items_from buf s').1, (items_from buf s').2) := by
  rw [items_from]
  split <;> simp_all

/-! ## Reserve-entry iterator (`src/base/iters.rs` lines 31-74) -/

/-- Outcome of one `DevTreeReserveEntryIter::next` call.  `terminated`
is a `None` return: the iterator's offset is NOT advanced on either
`None` path.  `panicked` models `self.read().unwrap()` when `ptr_at`
reports that 16 bytes do not fit at the current offset. -/
inductive RStep where
  | panicked
  | terminated
  | entry (addr sz : Nat) (newOff : Nat)
deriving DecidableEq, Repr

/-- `DevTreeReserveEntryIter::next`: return `None` when the offset exceeds
`totalsize`; otherwise read an `fdt_reserve_entry` (unwrap: panic if 16
bytes do not fit in the buffer); return `None` on the all-zero entry
(offset unchanged); otherwise advance by 16 and yield the entry. -/
def reserve_next (buf : Buf) (off : Nat) : RStep :=
  if totalsize buf < off then .terminated
  else if buf.length < off + 16 then .panicked
  else
    let addr := (read_be_u64 buf off).getD 0
    let sz := (read_be_u64 buf (off + 8)).getD 0
    if addr = 0 ∧ sz = 0 then .terminated
    else .entry addr sz (off + 16)

theorem reserve_next_entry {buf : Buf} {off a s o : Nat}
    (h : reserve_next buf off = .entry a s o) :
    o = off + 16 ∧ off + 16 ≤ buf.length ∧ ¬ totalsize buf < off ∧
    a = (read_be_u64 buf off).getD 0 ∧ s = (read_be_u64 buf (off + 8)).getD 0 ∧
    ¬ (a = 0 ∧ s = 0) := by
  unfold reserve_next at h
  by_cases h1 : totalsize buf < off
  · simp [h1] at h
  · simp only [h1, if_false] at h
    by_cases h2 : buf.length < off + 16
    · simp [h2] at h
    · simp only [h2, if_false] at h
      by_cases h3 : (read_be_u64 buf off).getD 0 = 0 ∧ (read_be_u64 buf (off + 8)).getD 0 = 0
      · simp [h3] at h
      · simp only [h3, if_false] at h
        injection h with e1 e2 e3
        subst e1; subst e2; subst e3
        exact ⟨rfl, by omega, h1, rfl, rfl, h3⟩

theorem reserve_next_terminated {buf : Buf} {off : Nat}
    (h : reserve_next buf off = .terminated) :
    totalsize buf < off ∨
    (¬ totalsize buf < off ∧ off + 16 ≤ buf.length ∧
     (read_be_u64 buf off).getD 0 = 0 ∧ (read_be_u64 buf (off + 8)).getD 0 = 0) := by
  unfold reserve_next at h
  by_cases h1 : totalsize buf < off
  · exact Or.inl h1
  · simp only [h1, if_false] at h
    by_cases h2 : buf.length < off + 16
    · simp [h2] at h
    · simp only [h2, if_false] at h
      by_cases h3 : (read_be_u64 buf off).getD 0 = 0 ∧ (read_be_u64 buf (off + 8)).getD 0 = 0
      · exact Or.inr ⟨h1, by omega, h3.1, h3.2⟩
      · simp [h3] at h

/-- The n-th output of the reserve-entry iterator started at `off`
(re-invoking `next` after a `None`, which leaves the offset unchanged). -/
def reserve_nth (buf : Buf) (off : Nat) : Nat → RStep
  | 0 => reserve_next buf off
  | n + 1 =>
    match reserve_next buf off with
    | .entry _ _ o => reserve_nth buf o n
    | .terminated => reserve_nth buf off n
    | .panicked => .panicked

/-- The list of entries emitted by the reserve-entry iterator until it
stops; `none` when iteration panics. -/
def reserve_run (buf : Buf) (off : Nat) : Option (List (Nat × Nat)) :=
  match h : reserve_next buf off with
  | .panicked => none
  | .terminated => some []
  | .entry a s o => (reserve_run buf o).map (fun l => (a, s) :: l)
termination_by buf.length - off
decreasing_by
  have := reserve_next_entry h
  omega

/-- The reserve map as described by the spec and claim: successive
16-byte (address, size) records starting at `off`, stopping without
emitting at the first all-zero record or once the offset walks past
`totalsize`. -/
def spec_reserve_list (buf : Buf) (off : Nat) : List (Nat × Nat) :=
  if totalsize buf < off then []
  else
    let a := (read_be_u64 buf off).getD 0
    let s := (read_be_u64 buf (off + 8)).getD 0
    if a = 0 ∧ s = 0 then [] else (a, s) :: spec_reserve_list buf (off + 16)
termination_by totalsize buf + 1 - off
decreasing_by
  rename_i h
  omega

/-! ## Index arena records (`src/index.rs`) -/

/-- `DTIProp`: (value slice, name offset). -/
structure IdxProp where
  prop_buf : List Nat
  nameOff : Nat
deriving DecidableEq, Repr

/-- `DTINode`: parent / first_child / next pointers (modelled as node
indices in creation order), name slice, and the property count.  The
`props` field models the packed run of `DTIProp` records that the code
lays out in memory immediately after the node record (the builder
allocates them contiguously while the node header is open). -/
structure IdxNode where
  parent : Option Nat
  first_child : Option Nat
  next : Option Nat
  name : List Nat
  num_props : Nat
  props : List IdxProp
deriving DecidableEq, Repr

/-- The advance step of the indexed DFS iterator
(`DevTreeIndexNodeIter::next`, `src/index.rs` lines 452-478):
`first_child` or else `next`. -/
def dfs_next (ns : List IdxNode) (i : Nat) : Option Nat :=
  match ns[i]? with
  | none => none
  | some nd =>
    match nd.first_child with
    | some j => some j
    | none => nd.next

/-- The n-th node index yielded by the indexed DFS iterator. -/
def dfs_nth (ns : List IdxNode) : Option Nat → Nat → Option Nat
  | none, _ => none
  | some i, 0 => some i
  | some i, n + 1 => dfs_nth ns (dfs_next ns i) n

/-- The first `k` node names yielded by the indexed DFS iterator. -/
def dfs_names (ns : List IdxNode) : Option Nat → Nat → List (List Nat)
  | _, 0 => []
  | none, _ => []
  | some i, k + 1 =>
    (match ns[i]? with | some nd => nd.name | none => []) :: dfs_names ns (dfs_next ns i) k

/-- The advance step of `DevTreeIndexNodeSiblingIter::next`
(`src/index.rs` lines 500-528): follow `.next`, stopping when the target
does not have the same parent. -/
def sib_next (ns : List IdxNode) (i : Nat) : Option Nat :=
  match ns[i]? with
  | none => none
  | some nd =>
    match nd.next with
    | none => none
    | some j =>
      match ns[j]? with
      | none => none
      | some nj => if nj.parent = nd.parent then some j else none

/-- The n-th node index yielded by the sibling iterator. -/
def sib_nth (ns : List IdxNode) : Option Nat → Nat → Option Nat
  | none, _ => none
  | some i, 0 => some i
  | some i, n + 1 => sib_nth ns (sib_next ns i) n

/-- The n-th output of `DevTreeIndexNodePropIter` over a node whose
iterator currently stands at property index `idx`. -/
def np_nth (nd : IdxNode) (idx n : Nat) : Option IdxProp :=
  if idx + n < nd.num_props then nd.props[idx + n]? else none

/-- A 40-byte buffer whose header reports `totalsize = 100`: magic at
offset 0, totalsize 100 at offset 4, all remaining header fields zero. -/
def bufHeaderOnly : Buf :=
  [0xd0, 0x0d, 0xfe, 0xed, 0, 0, 0, 100,
   0, 0, 0, 0, 0, 0, 0, 0, 0, 0, 0, 0,
   0, 0, 0, 0, 0, 0, 0, 0, 0, 0, 0, 0,
   0, 0, 0, 0, 0, 0, 0, 0]

/-! ## Index builder (`src/index.rs`) -/

/-- `DTIBuilder` state: the arena of node records created so far (in
creation order; pointers are indices into this list), the bump-allocator
front offset into the caller's index buffer, the currently open node,
the most recently emitted node, and the node-header flag. -/
structure BState where
  nodes : List IdxNode
  front_off : Nat
  cur : Option Nat
  prev : Option Nat
  in_node_header : Bool
deriving DecidableEq, Repr

/-- `ptr.align_offset(align)` applied to an `align`-aligned base: round
`off` up to the next multiple of `alignN`. -/
def align_off (alignN off : Nat) : Nat := off + (alignN - off % alignN) % alignN

/-- `DTIBuilder::allocate_aligned_ptr` together with `aligned_ptr_in`
(`src/index.rs` lines 23-39, 88-95): align the front offset, then require
the record to end STRICTLY before the buffer's end
(`buf_start + buf_len > ptr + size`); returns the new front offset, or
`none` for `NotEnoughMemory`. -/
def allocate_aligned (alignN sz bufLen off : Nat) : Option Nat :=
  let p := align_off alignN off
  if p + sz < bufLen then some (p + sz) else none

/-- Update the record at index `i` (no-op when out of range, which never
happens for the indices the builder uses). -/
def set_node (ns : List IdxNode) (i : Nat) (f : IdxNode → IdxNode) : List IdxNode :=
  match ns[i]? with
  | some nd => ns.set i (f nd)
  | none => ns

inductive BRes where
  | panicked
  | errored (e : DevTreeError)
  | ok (st : BState)
deriving DecidableEq, Repr

/-- Write (2) of `parsed_node`: when `parent.next` is currently non-null,
set that node's `next` to the new node `m`. -/
def link_prev_sibling (m p : Nat) (ns1 : List IdxNode) : List IdxNode :=
  match (ns1[p]?).bind (fun ndp => ndp.next) with
  | some j => set_node ns1 j (fun nd => { nd with next := some m })
  | none => ns1

/-- Write (4) of `parsed_node`: set `parent.first_child` to the new node
`m` when it is currently null. -/
def link_first_child (m p : Nat) (ns3 : List IdxNode) : List IdxNode :=
  match ns3[p]? with
  | some ndp =>
    if ndp.first_child = none then
      set_node ns3 p (fun nd => { nd with first_child := some m })
    else ns3
  | none => ns3

/-- The pointer writes of `parsed_node` when a parent exists, in source
order (`src/index.rs` lines 118-137): (1) `prev_new.next := new`; (2) if
`parent.next` is non-null NOW — it may have just been set by (1) when
the parent is also `prev_new`! — `(parent.next).next := new`; (3)
`parent.next := new`; (4) set `parent.first_child` when it is null.
`m` is the new node's index, `p` the parent's, `q` `prev_new`'s. -/
def parsed_node_link (m p q : Nat) (ns0 : List IdxNode) : List IdxNode :=
  link_first_child m p
    (set_node (link_prev_sibling m p (set_node ns0 q (fun nd => { nd with next := some m }))) p
      (fun nd => { nd with next := some m }))

/-- `DTIBuilder::parsed_node` (`src/index.rs` lines 97-145): allocate an
aligned `DTINode` record; write the fresh record (parent is cur, no
child, no next); when a parent exists perform the pointer writes of
`parsed_node_link` (a null `prev_new_node` alongside a non-null parent
would be a null dereference — unreachable); finally
`cur := prev := new` and `in_node_header := true`. -/
def parsed_node (nodeSize alignN bufLen : Nat) (name : List Nat) (st : BState) : BRes :=
  match allocate_aligned alignN nodeSize bufLen st.front_off with
  | none => .errored .notEnoughMemory
  | some front2 =>
    let m := st.nodes.length
    let ns0 := st.nodes ++ [⟨st.cur, none, none, name, 0, []⟩]
    match st.cur, st.prev with
    | none, _ => .ok ⟨ns0, front2, some m, some m, true⟩
    | some _, none => .panicked
    | some p, some q => .ok ⟨parsed_node_link m p q ns0, front2, some m, some m, true⟩

/-- `DTIBuilder::parsed_prop` (`src/index.rs` lines 147-159): fail with
`ParseError` outside a node header; allocate a `DTIProp` record;
increment the open node's `num_props` (the record goes into its packed
run). -/
def parsed_prop (propSize alignN bufLen : Nat) (pb : List Nat) (noff : Nat) (st : BState) :
    BRes :=
  if st.in_node_header = false then .errored .parseError
  else
    match allocate_aligned alignN propSize bufLen st.front_off with
    | none => .errored .notEnoughMemory
    | some front2 =>
      match st.cur with
      | none => .panicked
      | some c =>
        .ok { st with
          nodes := set_node st.nodes c (fun nd =>
            { nd with num_props := nd.num_props + 1, props := nd.props ++ [⟨pb, noff⟩] }),
          front_off := front2 }

/-- `DTIBuilder::parsed_end_node` (`src/index.rs` lines 161-183). -/
def parsed_end_node (st : BState) : BRes :=
  match st.cur with
  | none => .errored .parseError
  | some c =>
    match st.nodes[c]? with
    | none => .panicked
    | some nd => .ok { st with cur := nd.parent, in_node_header := false }

inductive IBRes where
  | panicked
  | errored (e : DevTreeError)
  | ok (st : BState) (off : Nat)
deriving DecidableEq, Repr

/-- `DevTreeIndex::init_builder` (`src/index.rs` lines 195-219): skip
NOPs until the first BEGIN_NODE, build that node, and return; anything
else (including stream end or a parse failure) is a `ParseError`. -/
def init_builder (nodeSize alignN bufLen : Nat) (buf : Buf) (off : Nat) (st : BState) : IBRes :=
  match h : next_devtree_token buf off with
  | .panicked => .panicked
  | .failed _ => .errored .parseError
  | .endTok _ => .errored .parseError
  | .ok (.beginNode name) o =>
    match parsed_node nodeSize alignN bufLen name st with
    | .panicked => .panicked
    | .errored e => .errored e
    | .ok st2 => .ok st2 o
  | .ok (.propTok _ _) _ => .errored .parseError
  | .ok .endNode _ => .errored .parseError
  | .ok .nop o => init_builder nodeSize alignN bufLen buf o st
termination_by buf.length - off
decreasing_by
  have := next_devtree_token_ok_bounds h
  omega

/-- The main token loop of `DevTreeIndex::new` (`src/index.rs` lines
274-287).  The `DevTreeParseIter` yields `None` both at the END token and
on a parse failure, which simply ends the loop (the build still
succeeds). -/
def build_loop (nodeSize propSize alignN bufLen : Nat) (buf : Buf) (off : Nat) (st : BState) :
    BRes :=
  match h : next_devtree_token buf off with
  | .panicked => .panicked
  | .failed _ => .ok st
  | .endTok _ => .ok st
  | .ok (.beginNode name) o =>
    match parsed_node nodeSize alignN bufLen name st with
    | .panicked => .panicked
    | .errored e => .errored e
    | .ok st2 => build_loop nodeSize propSize alignN bufLen buf o st2
  | .ok (.propTok pb noff) o =>
    match parsed_prop propSize alignN bufLen pb noff st with
    | .panicked => .panicked
    | .errored e => .errored e
    | .ok st2 => build_loop nodeSize propSize alignN bufLen buf o st2
  | .ok .endNode o =>
    match parsed_end_node st with
    | .panicked => .panicked
    | .errored e => .errored e
    | .ok st2 => build_loop nodeSize propSize alignN bufLen buf o st2
  | .ok .nop o => build_loop nodeSize propSize alignN bufLen buf o st
termination_by buf.length - off
decreasing_by
  all_goals
    have := next_devtree_token_ok_bounds h
    omega

inductive IRes where
  | panicked
  | errored (e : DevTreeError)
  | ok (root : Nat) (nodes : List IdxNode)
deriving DecidableEq, Repr

/-- `DevTreeIndex::new` (`src/index.rs` lines 259-290): run the init
loop from `off_dt_struct`, record the root (the builder's current node),
then run the main loop.  `nodeSize`, `propSize`, `alignN` stand for
`size_of::<DTINode>()`, `size_of::<DTIProp>()` and the common alignment
(`const_assert_eq!(align_of::<DTINode>(), align_of::<DTIProp>())`). -/
def devtree_index_new (nodeSize propSize alignN : Nat) (buf : Buf) (bufLen : Nat) : IRes :=
  match init_builder nodeSize alignN bufLen buf (off_dt_struct buf) ⟨[], 0, none, none, false⟩ with
  | .panicked => .panicked
  | .errored e => .errored e
  | .ok st off =>
    match st.cur with
    | none => .panicked
    | some r =>
      match build_loop nodeSize propSize alignN bufLen buf off st with
      | .panicked => .panicked
      | .errored e => .errored e
      | .ok fin => .ok r fin.nodes

/-- Number of node items in an item list. -/
def count_nodes (items : List Item) : Nat :=
  items.countP fun i => match i with | .node _ => true | .prop _ => false

/-- Number of property items in an item list. -/
def count_props (items : List Item) : Nat :=
  items.countP fun i => match i with | .node _ => false | .prop _ => true

/-- `DevTreeIndex::get_layout` (`src/index.rs` lines 221-257): iterate
the unindexed item iterator, summing `size_of::<DTINode>()` per node and
`size_of::<DTIProp>()` per property; the layout's alignment is
`align_of::<DTINode>()`. -/
def get_layout_size (nodeSize propSize : Nat) (buf : Buf) : Nat :=
  count_nodes (items_from buf ⟨off_dt_struct buf, none⟩).1 * nodeSize +
  count_props (items_from buf ⟨off_dt_struct buf, none⟩).1 * propSize

/-- Total number of property records across an arena. -/
def total_props (ns : List IdxNode) : Nat := (ns.map (fun nd => nd.num_props)).sum

theorem build_loop_eq_failed {nS pS aN bufLen : Nat} {buf : Buf} {off : Nat} {st : BState}
    {o : Nat} (h : next_devtree_token buf off = .failed o) :
    build_loop nS pS aN bufLen buf off st = .ok st := by
  rw [build_loop]
  split <;> simp_all

theorem build_loop_eq_endTok {nS pS aN bufLen : Nat} {buf : Buf} {off : Nat} {st : BState}
    {o : Nat} (h : next_devtree_token buf off = .endTok o) :
    build_loop nS pS aN bufLen buf off st = .ok st := by
  rw [build_loop]
  split <;> simp_all

theorem build_loop_step_begin {nS pS aN bufLen : Nat} {buf : Buf} {off : Nat} {st st2 : BState}
    {name : List Nat} {o : Nat}
    (htok : next_devtree_token buf off = .ok (.beginNode name) o)
    (hp : parsed_node nS aN bufLen name st = .ok st2) :
    build_loop nS pS aN bufLen buf off st = build_loop nS pS aN bufLen buf o st2 := by
  rw [build_loop]
  split <;> simp_all

theorem build_loop_step_prop {nS pS aN bufLen : Nat} {buf : Buf} {off : Nat} {st st2 : BState}
    {pb : List Nat} {noff o : Nat}
    (htok : next_devtree_token buf off = .ok (.propTok pb noff) o)
    (hp : parsed_prop pS aN bufLen pb noff st = .ok st2) :
    build_loop nS pS aN bufLen buf off st = build_loop nS pS aN bufLen buf o st2 := by
  rw [build_loop]
  split <;> simp_all

theorem build_loop_step_endNode {nS pS aN bufLen : Nat} {buf : Buf} {off : Nat} {st st2 : BState}
    {o : Nat}
    (htok : next_devtree_token buf off = .ok .endNode o)
    (hp : parsed_end_node st = .ok st2) :
    build_loop nS pS aN bufLen buf off st = build_loop nS pS aN bufLen buf o st2 := by
  rw [build_loop]
  split <;> simp_all

theorem build_loop_step_nop {nS pS aN bufLen : Nat} {buf : Buf} {off : Nat} {st : BState}
    {o : Nat} (htok : next_devtree_token buf off = .ok .nop o) :
    build_loop nS pS aN bufLen buf off st = build_loop nS pS aN bufLen buf o st := by
  rw [build_loop]
  split <;> simp_all

/-- A 68-byte device tree: root node with empty name containing a single
child node "a" and no properties (`BEGIN ""; BEGIN "a"; END; END; END`).
totalsize 68, off_dt_struct 40. -/
def bufTwoNodes : Buf :=
  [0xd0, 0x0d, 0xfe, 0xed, 0, 0, 0, 68,
   0, 0, 0, 40, 0, 0, 0, 0, 0, 0, 0, 0,
   0, 0, 0, 0, 0, 0, 0, 0, 0, 0, 0, 0,
   0, 0, 0, 0, 0, 0, 0, 0,
   0, 0, 0, 1, 0, 0, 0, 0,
   0, 0, 0, 1, 97, 0, 0, 0,
   0, 0, 0, 2,
   0, 0, 0, 2,
   0, 0, 0, 9]

/-- The arena the builder produces on `bufTwoNodes` (with `DTINode` size
48, `DTIProp` size 24, alignment 8, as on a 64-bit target): the root's
`next` points at its own child, and the child's `next` points at ITSELF
(the self-loop arises because the parent is also `prev_new_node` when
its first child is created, so step (2) of `parsed_node` reads the
parent's just-written `next`). -/
def c2nodes : List IdxNode :=
  [⟨none, some 1, some 1, [], 0, []⟩, ⟨some 0, none, some 1, [97], 0, []⟩]

/-- A 56-byte device tree: a single root node with empty name and no
properties (`BEGIN ""; END; END-of-stream`). totalsize 56,
off_dt_struct 40. -/
def bufOneNode : Buf :=
  [0xd0, 0x0d, 0xfe, 0xed, 0, 0, 0, 56,
   0, 0, 0, 40, 0, 0, 0, 0, 0, 0, 0, 0,
   0, 0, 0, 0, 0, 0, 0, 0, 0, 0, 0, 0,
   0, 0, 0, 0, 0, 0, 0, 0,
   0, 0, 0, 1, 0, 0, 0, 0,
   0, 0, 0, 2,
   0, 0, 0, 9]

/-! ## Property value readers (`src/fdt_util/props.rs`, `src/traits.rs`) -/

/-- `DevTreePropState::get_u32`: a big-endian read from the property's
value slice, any read failure mapped to `InvalidOffset`.  A pure function
of the slice and offset (no state is mutated). -/
def prop_get_u32 (pb : List Nat) (off : Nat) : Except DevTreeError Nat :=
  match read_be_u32 pb off with
  | some v => .ok v
  | none => .error .invalidOffset

/-- `DevTreePropState::get_u64`: as `get_u32` with an 8-byte read. -/
def prop_get_u64 (pb : List Nat) (off : Nat) : Except DevTreeError Nat :=
  match read_be_u64 pb off with
  | some v => .ok v
  | none => .error .invalidOffset

/-- Validity of a byte sequence as UTF-8, as checked by Rust's
`core::str::from_utf8` (external to the repository; standard UTF-8
well-formedness: C2-DF + 1 continuation, E0/E1-EC/ED/EE-EF + 2, F0/F1-F3/F4
+ 3, with the usual tightened second-byte ranges). -/
def utf8Valid : List Nat → Bool
  | [] => true
  | b :: rest =>
    if b < 0x80 then utf8Valid rest
    else if 0xC2 ≤ b ∧ b ≤ 0xDF then
      match rest with
      | c1 :: r => if 0x80 ≤ c1 ∧ c1 ≤ 0xBF then utf8Valid r else false
      | [] => false
    else if b = 0xE0 then
      match rest with
      | c1 :: c2 :: r =>
        if (0xA0 ≤ c1 ∧ c1 ≤ 0xBF) ∧ (0x80 ≤ c2 ∧ c2 ≤ 0xBF) then utf8Valid r else false
      | _ => false
    else if (0xE1 ≤ b ∧ b ≤ 0xEC) ∨ (0xEE ≤ b ∧ b ≤ 0xEF) then
      match rest with
      | c1 :: c2 :: r =>
        if (0x80 ≤ c1 ∧ c1 ≤ 0xBF) ∧ (0x80 ≤ c2 ∧ c2 ≤ 0xBF) then utf8Valid r else false
      | _ => false
    else if b = 0xED then
      match rest with
      | c1 :: c2 :: r =>
        if (0x80 ≤ c1 ∧ c1 ≤ 0x9F) ∧ (0x80 ≤ c2 ∧ c2 ≤ 0xBF) then utf8Valid r else false
      | _ => false
    else if b = 0xF0 then
      match rest with
      | c1 :: c2 :: c3 :: r =>
        if (0x90 ≤ c1 ∧ c1 ≤ 0xBF) ∧ (0x80 ≤ c2 ∧ c2 ≤ 0xBF) ∧ (0x80 ≤ c3 ∧ c3 ≤ 0xBF) then
          utf8Valid r
        else false
      | _ => false
    else if 0xF1 ≤ b ∧ b ≤ 0xF3 then
      match rest with
      | c1 :: c2 :: c3 :: r =>
        if (0x80 ≤ c1 ∧ c1 ≤ 0xBF) ∧ (0x80 ≤ c2 ∧ c2 ≤ 0xBF) ∧ (0x80 ≤ c3 ∧ c3 ≤ 0xBF) then
          utf8Valid r
        else false
      | _ => false
    else if b = 0xF4 then
      match rest with
      | c1 :: c2 :: c3 :: r =>
        if (0x80 ≤ c1 ∧ c1 ≤ 0x8F) ∧ (0x80 ≤ c2 ∧ c2 ≤ 0xBF) ∧ (0x80 ≤ c3 ∧ c3 ≤ 0xBF) then
          utf8Valid r
        else false
      | _ => false
    else false

/-- `get_string` from `src/fdt_util/props.rs`: read a zero-terminated
byte run from `off` in the property value; on `parse`, decode it (an
invalid sequence is a `StrError`).  Returns the consumed length
(including the NUL) and the run's bytes. -/
def get_string (pb : List Nat) (off : Nat) (parse : Bool) : Except DevTreeError (Nat × List Nat) :=
  match read_bstring0 pb off with
  | none => .error .parseError
  | some bs =>
    if parse then
      if utf8Valid bs then .ok (bs.length + 1, bs) else .error .strError
    else .ok (bs.length + 1, bs)

theorem read_bstring0_some_lt {pb : List Nat} {off : Nat} {bs : List Nat}
    (h : read_bstring0 pb off = some bs) : off < pb.length := by
  by_contra hge
  push_neg at hge
  unfold read_bstring0 at h
  rw [List.drop_eq_nil_of_le hge] at h
  simp at h

theorem get_string_ok {pb : List Nat} {off : Nat} {parse : Bool} {len : Nat} {s : List Nat}
    (h : get_string pb off parse = .ok (len, s)) :
    read_bstring0 pb off = some s ∧ len = s.length + 1 ∧ off < pb.length := by
  unfold get_string at h
  split at h
  · exact absurd h (by simp)
  · rename_i bs hr
    have hlt := read_bstring0_some_lt hr
    split_ifs at h with hp hv <;>
      first
        | (injection h with h2; cases h2; exact ⟨hr, rfl, hlt⟩)
        | injection h

/-- Outcome of `iter_str_list` (`src/fdt_util/props.rs` lines 203-224)
when called with a caller slice: `panicked` is the out-of-bounds write
`(*list)[count]`. -/
inductive StrListOut where
  | panicked
  | errored (e : DevTreeError)
  | ok (count : Nat)
deriving DecidableEq, Repr

/-- `iter_str_list` with a supplied slice of length `listLen` (the
`get_strlist` path, `parse = true`): walk zero-terminated runs from
`off`; when the offset lands exactly on the value's length return the
count; write each parsed run into `list[count]` — a write at
`count ≥ listLen` is an out-of-bounds panic; the count is never compared
against the slice length beforehand. -/
def iter_str_list_go (pb : List Nat) (listLen : Nat) (off count : Nat) : StrListOut :=
  if off = pb.length then .ok count
  else
    match h : get_string pb off true with
    | .error e => .errored e
    | .ok (len, s) =>
      if count < listLen then iter_str_list_go pb listLen (off + len) (count + 1)
      else .panicked
termination_by pb.length - off
decreasing_by
  have := get_string_ok h
  omega

/-- Concatenate NUL-terminated runs: the property value shape described
by claim C10. -/
def runs_join (runs : List (List Nat)) : List Nat :=
  (runs.map (fun r => r ++ [0])).flatten

/-- A 60-byte device tree whose struct block is
`END; BEGIN_NODE "x"; END_NODE; END` (totalsize 60, off_dt_struct 40). -/
def bufEndThenNode : Buf :=
  [0xd0, 0x0d, 0xfe, 0xed, 0, 0, 0, 60,
   0, 0, 0, 40, 0, 0, 0, 0, 0, 0, 0, 0,
   0, 0, 0, 0, 0, 0, 0, 0, 0, 0, 0, 0,
   0, 0, 0, 0, 0, 0, 0, 0,
   0, 0, 0, 9,
   0, 0, 0, 1, 120, 0, 0, 0,
   0, 0, 0, 2,
   0, 0, 0, 9]

/-- A 40-byte device tree with `totalsize = 40` and
`off_mem_rsvmap = 36`: the first reserve entry would need bytes 36..52,
past the end of the buffer. -/
def bufRsv36 : Buf :=
  [0xd0, 0x0d, 0xfe, 0xed, 0, 0, 0, 40,
   0, 0, 0, 32, 0, 0, 0, 0, 0, 0, 0, 36,
   0, 0, 0, 0, 0, 0, 0, 0, 0, 0, 0, 0,
   0, 0, 0, 0, 0, 0, 0, 0]

/-- A 44-byte device tree with `totalsize = 44` and
`off_mem_rsvmap = 32`: the first reserve entry would need bytes 32..48,
past the end of the buffer. -/
def bufRsv32 : Buf :=
  [0xd0, 0x0d, 0xfe, 0xed, 0, 0, 0, 44,
   0, 0, 0, 40, 0, 0, 0, 0, 0, 0, 0, 32,
   0, 0, 0, 0, 0, 0, 0, 0, 0, 0, 0, 0,
   0, 0, 0, 0, 0, 0, 0, 0,
   0, 0, 0, 9]

/-! ## Theorems -/

/-- C1 counterexample: `DevTree::new` accepts a 40-byte buffer whose
header claims `totalsize = 100`, so the returned tree's `totalsize()` is
strictly greater than the buffer length, refuting
`open(B).totalsize() ≤ B.len`. -/
theorem c1_totalsize_le_counterexample :
    devtree_new bufHeaderOnly = .ok () ∧
    totalsize bufHeaderOnly = 100 ∧
    bufHeaderOnly.length = 40 ∧
    ¬ totalsize bufHeaderOnly ≤ bufHeaderOnly.length := by
  refine ⟨by decide, by decide, by decide, by decide⟩

/-- C1 amended: for every buffer `B` on which `DevTree::new` succeeds, the
returned tree's `totalsize()` is greater than or equal to `B.len` (the
code rejects exactly the buffers with `totalsize < len`; callers are
expected to pass a slice trimmed to exactly `totalsize`). -/
theorem c1_totalsize_ge (buf : Buf) (h : devtree_new buf = .ok ()) :
    buf.length ≤ totalsize buf := by
  unfold devtree_new read_totalsize at h
  cases hm : verify_magic buf with
  | error e => rw [hm] at h; exact absurd h (by simp)
  | ok _ =>
    rw [hm] at h
    cases hr : read_be_u32 buf 4 with
    | none => rw [hr] at h; exact absurd h (by simp)
    | some v =>
      rw [hr] at h
      unfold totalsize
      rw [hr]
      by_cases hlt : v < buf.length
      · simp [hlt] at h
      · simpa using Nat.le_of_not_lt hlt

/-- C1 witness: the amended theorem applied at a concrete accepted buffer. -/
theorem c1_totalsize_ge_witness :
    devtree_new bufHeaderOnly = .ok () ∧
    bufHeaderOnly.length ≤ totalsize bufHeaderOnly :=
  ⟨by decide, c1_totalsize_ge bufHeaderOnly (by decide)⟩

/-! ### C6: iterator None-stickiness -/

theorem reserve_nth_sticky_succ {buf : Buf} :
    ∀ (n : Nat) (off : Nat), reserve_nth buf off n = .terminated →
      reserve_nth buf off (n + 1) = .terminated := by
  intro n
  induction n with
  | zero =>
    intro off h
    show (match reserve_next buf off with
          | .entry _ _ o => reserve_nth buf o 0
          | .terminated => reserve_nth buf off 0
          | .panicked => .panicked) = .terminated
    rw [show reserve_next buf off = .terminated from h]
    exact h
  | succ n ih =>
    intro off h
    show (match reserve_next buf off with
          | .entry _ _ o => reserve_nth buf o (n + 1)
          | .terminated => reserve_nth buf off (n + 1)
          | .panicked => .panicked) = .terminated
    cases hr : reserve_next buf off with
    | panicked =>
      rw [show reserve_nth buf off (n + 1) =
            (match reserve_next buf off with
             | .entry _ _ o => reserve_nth buf o n
             | .terminated => reserve_nth buf off n
             | .panicked => .panicked) from rfl, hr] at h
      exact absurd h (by simp)
    | terminated =>
      rw [show reserve_nth buf off (n + 1) =
            (match reserve_next buf off with
             | .entry _ _ o => reserve_nth buf o n
             | .terminated => reserve_nth buf off n
             | .panicked => .panicked) from rfl, hr] at h
      exact ih off h
    | entry a s o =>
      rw [show reserve_nth buf off (n + 1) =
            (match reserve_next buf off with
             | .entry _ _ o => reserve_nth buf o n
             | .terminated => reserve_nth buf off n
             | .panicked => .panicked) from rfl, hr] at h
      exact ih o h

theorem dfs_nth_sticky_succ {ns : List IdxNode} :
    ∀ (n : Nat) (c : Option Nat), dfs_nth ns c n = none →
      dfs_nth ns c (n + 1) = none := by
  intro n
  induction n with
  | zero =>
    intro c h
    cases c with
    | none => rfl
    | some i => exact absurd h (by simp [dfs_nth])
  | succ n ih =>
    intro c h
    cases c with
    | none => rfl
    | some i => exact ih (dfs_next ns i) h

theorem sib_nth_sticky_succ {ns : List IdxNode} :
    ∀ (n : Nat) (c : Option Nat), sib_nth ns c n = none →
      sib_nth ns c (n + 1) = none := by
  intro n
  induction n with
  | zero =>
    intro c h
    cases c with
    | none => rfl
    | some i => exact absurd h (by simp [sib_nth])
  | succ n ih =>
    intro c h
    cases c with
    | none => rfl
    | some i => exact ih (sib_next ns i) h

/-- C6 amended: once `next()` has returned `None`, every subsequent call
returns `None` — for the reserve-entry iterator, the indexed DFS node
iterator, the indexed sibling iterator and the per-node property
iterator.  (The claim is false for the unindexed iterators, whose cursor
advances past END or malformed tokens before the `None` return; see the
counterexample.) -/
theorem c6_none_sticky :
    (∀ (buf : Buf) (off n k : Nat), reserve_nth buf off n = .terminated →
       reserve_nth buf off (n + k) = .terminated) ∧
    (∀ (ns : List IdxNode) (c : Option Nat) (n k : Nat), dfs_nth ns c n = none →
       dfs_nth ns c (n + k) = none) ∧
    (∀ (ns : List IdxNode) (c : Option Nat) (n k : Nat), sib_nth ns c n = none →
       sib_nth ns c (n + k) = none) ∧
    (∀ (nd : IdxNode) (idx n k : Nat), np_nth nd idx n = none →
       np_nth nd idx (n + k) = none) := by
  refine ⟨?_, ?_, ?_, ?_⟩
  · intro buf off n k h
    induction k with
    | zero => exact h
    | succ k ih => exact reserve_nth_sticky_succ (n + k) off ih
  · intro ns c n k h
    induction k with
    | zero => exact h
    | succ k ih => exact dfs_nth_sticky_succ (n + k) c ih
  · intro ns c n k h
    induction k with
    | zero => exact h
    | succ k ih => exact sib_nth_sticky_succ (n + k) c ih
  · intro nd idx n k h
    unfold np_nth at h ⊢
    by_cases hlt : idx + n < nd.num_props
    · simp only [hlt, if_true] at h
      by_cases hlt2 : idx + (n + k) < nd.num_props
      · simp only [hlt2, if_true]
        have hlen : nd.props.length ≤ idx + n := by
          by_contra hc
          rw [List.getElem?_eq_getElem (by omega)] at h
          exact absurd h (by simp)
        exact List.getElem?_eq_none (by omega)
      · simp [hlt2]
    · rw [if_neg (by omega)]

/-- C6 witness: the sticky statement applied at a concrete iterator. -/
theorem c6_none_sticky_witness :
    reserve_nth bufHeaderOnly 20 0 = .terminated ∧
    reserve_nth bufHeaderOnly 20 (0 + 5) = .terminated :=
  ⟨by decide, c6_none_sticky.1 bufHeaderOnly 20 0 5 (by decide)⟩

/-- C6 counterexample: the unindexed item iterator is NOT None-sticky.
On `bufEndThenNode` the struct block is `END; BEGIN_NODE "x"; ...`; the
first `next()` returns `None` (END token) but advances the cursor to
offset 44, and the second `next()` returns the node "x". -/
theorem c6_counterexample :
    devtree_new bufEndThenNode = .ok () ∧
    off_dt_struct bufEndThenNode = 40 ∧
    next_devtree_item bufEndThenNode ⟨40, none⟩ = .halt ⟨44, none⟩ ∧
    next_devtree_item bufEndThenNode ⟨44, none⟩ =
      .item (.node ⟨[120], 44, ⟨52, some 44⟩⟩) ⟨52, some 44⟩ := by
  refine ⟨by decide, by decide, ?_, ?_⟩ <;> (rw [next_devtree_item]; decide)

/-! ### C7: panic reachable from a public operation -/

/-- C7: a buffer accepted by `DevTree::new` on which the very first
`reserved_entries().next()` call reaches `self.read().unwrap()` with
`ptr_at` returning `Err(InvalidOffset)` — i.e. a panic — refuting "no
public operation panics".  (`off_mem_rsvmap = 36`, `totalsize = len =
40`: the offset has not walked past `totalsize`, but 16 bytes do not
fit.) -/
theorem c7_reserve_unwrap_panics :
    devtree_new bufRsv36 = .ok () ∧
    off_mem_rsvmap bufRsv36 = 36 ∧
    totalsize bufRsv36 = 40 ∧
    bufRsv36.length = 40 ∧
    reserve_next bufRsv36 (off_mem_rsvmap bufRsv36) = .panicked := by
  decide

/-! ### C9: reserve-entry iteration -/

theorem reserve_run_eq_panicked {buf : Buf} {off : Nat}
    (h : reserve_next buf off = .panicked) : reserve_run buf off = none := by
  rw [reserve_run]
  split <;> simp_all

theorem reserve_run_eq_terminated {buf : Buf} {off : Nat}
    (h : reserve_next buf off = .terminated) : reserve_run buf off = some [] := by
  rw [reserve_run]
  split <;> simp_all

theorem reserve_run_eq_entry {buf : Buf} {off a s o : Nat}
    (h : reserve_next buf off = .entry a s o) :
    reserve_run buf off = (reserve_run buf o).map (fun l => (a, s) :: l) := by
  rw [reserve_run]
  split <;> simp_all

theorem reserve_run_spec {buf : Buf} :
    ∀ (off : Nat), ∀ l, reserve_run buf off = some l → l = spec_reserve_list buf off := by
  intro off
  induction off using reserve_run.induct buf with
  | case1 off h =>
    intro l hl
    rw [reserve_run_eq_panicked h] at hl
    exact absurd hl (by simp)
  | case2 off h =>
    intro l hl
    rw [reserve_run_eq_terminated h] at hl
    have hl' : l = [] := (Option.some.inj hl).symm
    subst hl'
    rcases reserve_next_terminated h with hc | ⟨h1, h2, h3, h4⟩
    · rw [spec_reserve_list, if_pos hc]
    · rw [spec_reserve_list, if_neg h1]
      simp [h3, h4]
  | case3 off a s o h ih =>
    intro l hl
    rw [reserve_run_eq_entry h] at hl
    cases hr : reserve_run buf o with
    | none => rw [hr] at hl; exact absurd hl (by simp)
    | some l' =>
      rw [hr] at hl
      have hl' : l = (a, s) :: l' := by
        have := Option.some.inj hl
        exact this.symm
      subst hl'
      obtain ⟨ho, hb, hts, ha, hs, hz⟩ := reserve_next_entry h
      rw [spec_reserve_list, if_neg hts]
      subst ho
      simp only [← ha, ← hs, hz, if_false]
      rw [ih l' hr]

/-- C9 amended: whenever reserve-entry iteration completes without a
panic, the emitted list is exactly the successive 16-byte (address,
size) records from `off_mem_rsvmap`, stopping without emitting at the
first all-zero record or once the offset walks past `totalsize`; no
entry past the all-zero terminator is ever emitted.  However, when the
offset is still within `totalsize` but the next 16 bytes do not fit in
the buffer, the iterator panics (unwrap of `Err`) instead of stopping. -/
theorem c9_reserved_entries :
    (∀ (buf : Buf) (off : Nat) (l : List (Nat × Nat)),
       reserve_run buf off = some l → l = spec_reserve_list buf off) ∧
    (∀ (buf : Buf) (off : Nat), ¬ totalsize buf < off → buf.length < off + 16 →
       reserve_next buf off = .panicked) := by
  constructor
  · intro buf off l h
    exact reserve_run_spec off l h
  · intro buf off h1 h2
    unfold reserve_next
    rw [if_neg h1, if_pos h2]

/-- C9 witness: the amended theorem applied at a concrete buffer. -/
theorem c9_reserved_entries_witness :
    reserve_run bufHeaderOnly 20 = some [] ∧
    ([] : List (Nat × Nat)) = spec_reserve_list bufHeaderOnly 20 := by
  have h : reserve_run bufHeaderOnly 20 = some [] := by
    rw [reserve_run]; decide
  exact ⟨h, c9_reserved_entries.1 bufHeaderOnly 20 [] h⟩

/-- C9 counterexample: a tree accepted by `DevTree::new` on which the
first `reserved_entries().next()` call neither emits an entry nor stops:
the offset (32) has not walked past `totalsize` (44) and no all-zero
entry was read, yet the iterator panics because the 16-byte record does
not fit in the buffer. -/
theorem c9_counterexample :
    devtree_new bufRsv32 = .ok () ∧
    off_mem_rsvmap bufRsv32 = 32 ∧
    ¬ totalsize bufRsv32 < off_mem_rsvmap bufRsv32 ∧
    reserve_next bufRsv32 (off_mem_rsvmap bufRsv32) = .panicked := by
  decide

/-! ### C8: property u32/u64 reads -/

/-- C8: for a property value slice of length L, `get_u32(o)` returns Ok
iff `o + 4 ≤ L` and otherwise `Err(InvalidOffset)`; `get_u64(o)` returns
Ok iff `o + 8 ≤ L` and otherwise `Err(InvalidOffset)`.  Both are pure
functions of the slice and offset, so no state is mutated and an error on
one call cannot affect another. -/
theorem c8_prop_reads (pb : List Nat) (off : Nat) :
    ((∃ v, prop_get_u32 pb off = .ok v) ↔ off + 4 ≤ pb.length) ∧
    (pb.length < off + 4 → prop_get_u32 pb off = .error .invalidOffset) ∧
    ((∃ v, prop_get_u64 pb off = .ok v) ↔ off + 8 ≤ pb.length) ∧
    (pb.length < off + 8 → prop_get_u64 pb off = .error .invalidOffset) := by
  refine ⟨?_, ?_, ?_, ?_⟩
  · constructor
    · rintro ⟨v, hv⟩
      unfold prop_get_u32 read_be_u32 at hv
      by_cases hb : off + 4 ≤ pb.length
      · exact hb
      · simp [hb] at hv
    · intro hb
      refine ⟨pb.getD off 0 * 16777216 + pb.getD (off + 1) 0 * 65536 +
              pb.getD (off + 2) 0 * 256 + pb.getD (off + 3) 0, ?_⟩
      unfold prop_get_u32 read_be_u32
      rw [if_pos hb]
  · intro hb
    unfold prop_get_u32 read_be_u32
    rw [if_neg (by omega)]
  · constructor
    · rintro ⟨v, hv⟩
      unfold prop_get_u64 read_be_u64 at hv
      by_cases hb : off + 8 ≤ pb.length
      · exact hb
      · simp [hb] at hv
    · intro hb
      refine ⟨pb.getD off 0 * 72057594037927936 + pb.getD (off + 1) 0 * 281474976710656 +
              pb.getD (off + 2) 0 * 1099511627776 + pb.getD (off + 3) 0 * 4294967296 +
              pb.getD (off + 4) 0 * 16777216 + pb.getD (off + 5) 0 * 65536 +
              pb.getD (off + 6) 0 * 256 + pb.getD (off + 7) 0, ?_⟩
      unfold prop_get_u64 read_be_u64
      rw [if_pos hb]
  · intro hb
    unfold prop_get_u64 read_be_u64
    rw [if_neg (by omega)]

/-- C8 witness: the theorem applied at a concrete slice and offsets. -/
theorem c8_prop_reads_witness :
    prop_get_u32 [1, 2, 3, 4, 5, 6, 7, 8] 6 = .error .invalidOffset ∧
    prop_get_u64 [1, 2, 3, 4, 5, 6, 7, 8] 1 = .error .invalidOffset ∧
    (∃ v, prop_get_u32 [1, 2, 3, 4, 5, 6, 7, 8] 4 = .ok v) :=
  ⟨(c8_prop_reads [1, 2, 3, 4, 5, 6, 7, 8] 6).2.1 (by decide),
   (c8_prop_reads [1, 2, 3, 4, 5, 6, 7, 8] 1).2.2.2 (by decide),
   (c8_prop_reads [1, 2, 3, 4, 5, 6, 7, 8] 4).1.mpr (by decide)⟩

/-! ### C10: get_strlist out-of-bounds write -/

/-- C10 counterexample: a property value consisting of exactly one
NUL-terminated byte run (`[0xFF, 0x00]`) whose run is not valid UTF-8:
with a caller slice of length 0 < 1, `get_strlist` does NOT panic — it
returns `Err(StrError)` from parsing the run, before reaching the
`list[count]` write.  The claim as stated (for every such property it
panics) is therefore false. -/
theorem c10_counterexample :
    runs_join [[255]] = [255, 0] ∧
    iter_str_list_go (runs_join [[255]]) 0 0 0 = .errored .strError ∧
    iter_str_list_go (runs_join [[255]]) 0 0 0 ≠ .panicked := by
  have h : iter_str_list_go [255, 0] 0 0 0 = .errored .strError := by
    rw [iter_str_list_go]
    decide
  have hj : runs_join [[255]] = [255, 0] := by decide
  rw [hj]
  exact ⟨rfl, h, by rw [h]; intro c; cases c⟩

theorem takeWhile_runs {r rest : List Nat} (h0 : (0 : Nat) ∉ r) :
    (r ++ 0 :: rest).takeWhile (fun b => b ≠ 0) = r := by
  induction r with
  | nil => simp [List.takeWhile]
  | cons a r ih =>
    have ha : a ≠ 0 := by
      intro c
      exact h0 (by rw [c]; exact List.mem_cons_self 0 r)
    have hr : (0 : Nat) ∉ r := fun c => h0 (List.mem_cons_of_mem a c)
    rw [List.cons_append]
    rw [List.takeWhile_cons_of_pos (by simpa using ha)]
    rw [ih hr]

theorem read_bstring0_runs {pb : List Nat} {off : Nat} {r rest : List Nat}
    (hd : pb.drop off = r ++ 0 :: rest) (h0 : (0 : Nat) ∉ r) :
    read_bstring0 pb off = some r := by
  unfold read_bstring0
  rw [hd]
  rw [if_pos (by simp)]
  rw [takeWhile_runs h0]

theorem iter_str_list_go_step_ok {pb : List Nat} {listLen off count len : Nat} {s : List Nat}
    (hoff : off ≠ pb.length) (h : get_string pb off true = .ok (len, s)) :
    iter_str_list_go pb listLen off count =
      if count < listLen then iter_str_list_go pb listLen (off + len) (count + 1)
      else .panicked := by
  rw [iter_str_list_go, if_neg hoff]
  split <;> simp_all

theorem iter_str_list_go_panics :
    ∀ (runs : List (List Nat)) (pb : List Nat) (listLen off count : Nat),
      pb.drop off = runs_join runs →
      (∀ r ∈ runs, (0 : Nat) ∉ r ∧ utf8Valid r = true) →
      listLen < count + runs.length → count ≤ listLen →
      iter_str_list_go pb listLen off count = .panicked := by
  intro runs
  induction runs with
  | nil =>
    intro pb listLen off count _ _ h3 h4
    simp only [List.length_nil] at h3
    omega
  | cons r rest ih =>
    intro pb listLen off count hd hrv h3 h4
    have hd' : pb.drop off = r ++ 0 :: runs_join rest := by
      rw [hd]
      simp [runs_join, List.append_assoc]
    have hoff : off ≠ pb.length := by
      intro c
      rw [List.drop_eq_nil_of_le (by omega)] at hd'
      exact absurd hd'.symm (by simp)
    have hb := read_bstring0_runs hd' (hrv r (List.mem_cons_self r rest)).1
    have hg : get_string pb off true = .ok (r.length + 1, r) := by
      unfold get_string
      rw [hb]
      simp [(hrv r (List.mem_cons_self r rest)).2]
    rw [iter_str_list_go_step_ok hoff hg]
    by_cases hc : count < listLen
    · rw [if_pos hc]
      refine ih pb listLen (off + (r.length + 1)) (count + 1) ?_ ?_ ?_ ?_
      · have : pb.drop (off + (r.length + 1)) = (pb.drop off).drop (r.length + 1) := by
          rw [List.drop_drop]
        rw [this, hd']
        have : r ++ 0 :: runs_join rest = (r ++ [0]) ++ runs_join rest := by
          simp [List.append_assoc]
        rw [this]
        have hlen : (r ++ [0]).length = r.length + 1 := by simp
        rw [← hlen, List.drop_left]
      · exact fun q hq => hrv q (List.mem_cons_of_mem r hq)
      · simp only [List.length_cons] at h3
        omega
      · omega
    · rw [if_neg hc]

/-- C10 amended: for every property whose value consists of `n`
NUL-terminated byte runs exactly covering its length, WHERE EACH RUN IS
VALID UTF-8, `get_strlist` with a caller slice of length `< n` panics
with an out-of-bounds index instead of returning an `Err`; the element
count is never checked against the supplied slice's length before
writing `list[count]`.  (When some run among the first `listLen + 1` is
not valid UTF-8 the call instead returns `Err(StrError)` first — see the
counterexample.) -/
theorem c10_strlist_oob (pb : List Nat) (runs : List (List Nat)) (listLen : Nat)
    (h1 : pb = runs_join runs)
    (h2 : ∀ r ∈ runs, (0 : Nat) ∉ r ∧ utf8Valid r = true)
    (h3 : listLen < runs.length) :
    iter_str_list_go pb listLen 0 0 = .panicked :=
  iter_str_list_go_panics runs pb listLen 0 0 (by simp [h1]) h2 (by omega) (by omega)

/-- C10 witness: two valid runs with a one-element slice. -/
theorem c10_strlist_oob_witness :
    (1 : Nat) < ([[97], [98]] : List (List Nat)).length ∧
    iter_str_list_go (runs_join [[97], [98]]) 1 0 0 = .panicked :=
  ⟨by decide, c10_strlist_oob (runs_join [[97], [98]]) [[97], [98]] 1 rfl (by decide) (by decide)⟩

/-! ### C2 / C3: index builder on a two-node tree -/

theorem build_two_nodes_eval :
    devtree_index_new 48 24 8 bufTwoNodes 1000 = .ok 0 c2nodes := by
  have hinit : init_builder 48 8 1000 bufTwoNodes (off_dt_struct bufTwoNodes)
      ⟨[], 0, none, none, false⟩ =
      .ok ⟨[⟨none, none, none, [], 0, []⟩], 48, some 0, some 0, true⟩ 48 := by
    rw [init_builder]
    decide
  have h1 : build_loop 48 24 8 1000 bufTwoNodes 48
      ⟨[⟨none, none, none, [], 0, []⟩], 48, some 0, some 0, true⟩ =
      build_loop 48 24 8 1000 bufTwoNodes 56 ⟨c2nodes, 96, some 1, some 1, true⟩ :=
    build_loop_step_begin (show next_devtree_token bufTwoNodes 48 = .ok (.beginNode [97]) 56 by
      decide) (by decide)
  have h2 : build_loop 48 24 8 1000 bufTwoNodes 56 ⟨c2nodes, 96, some 1, some 1, true⟩ =
      build_loop 48 24 8 1000 bufTwoNodes 60 ⟨c2nodes, 96, some 0, some 1, false⟩ :=
    build_loop_step_endNode (show next_devtree_token bufTwoNodes 56 = .ok .endNode 60 by decide)
      (by decide)
  have h3 : build_loop 48 24 8 1000 bufTwoNodes 60 ⟨c2nodes, 96, some 0, some 1, false⟩ =
      build_loop 48 24 8 1000 bufTwoNodes 64 ⟨c2nodes, 96, none, some 1, false⟩ :=
    build_loop_step_endNode (show next_devtree_token bufTwoNodes 60 = .ok .endNode 64 by decide)
      (by decide)
  have h4 : build_loop 48 24 8 1000 bufTwoNodes 64 ⟨c2nodes, 96, none, some 1, false⟩ =
      .ok ⟨c2nodes, 96, none, some 1, false⟩ :=
    build_loop_eq_endTok (show next_devtree_token bufTwoNodes 64 = .endTok 68 by decide)
  unfold devtree_index_new
  simp only [hinit, h1, h2, h3, h4]

theorem c2_items_eval : items_from bufTwoNodes ⟨40, none⟩ =
    ([.node ⟨[], 40, ⟨48, some 40⟩⟩, .node ⟨[97], 48, ⟨56, some 48⟩⟩], .ended) := by
  have i1 : next_devtree_item bufTwoNodes ⟨40, none⟩ =
      .item (.node ⟨[], 40, ⟨48, some 40⟩⟩) ⟨48, some 40⟩ := by
    rw [next_devtree_item]; decide
  have i2 : next_devtree_item bufTwoNodes ⟨48, some 40⟩ =
      .item (.node ⟨[97], 48, ⟨56, some 48⟩⟩) ⟨56, some 48⟩ := by
    rw [next_devtree_item]; decide
  have i3 : next_devtree_item bufTwoNodes ⟨56, some 48⟩ = .halt ⟨68, none⟩ := by
    rw [next_devtree_item_step_endNode
        (show next_devtree_token bufTwoNodes 56 = .ok .endNode 60 by decide)]
    rw [next_devtree_item_step_endNode
        (show next_devtree_token bufTwoNodes 60 = .ok .endNode 64 by decide)]
    rw [next_devtree_item]; decide
  rw [items_from_eq_item i1, items_from_eq_item i2, items_from_eq_halt i3]

theorem dfs_self_loop_aux : ∀ k, dfs_nth c2nodes (some 1) k = some 1 := by
  intro k
  induction k with
  | zero => rfl
  | succ k ih =>
    show dfs_nth c2nodes (dfs_next c2nodes 1) k = some 1
    rw [show dfs_next c2nodes 1 = some 1 from by decide]
    exact ih

/-- C2: on a valid two-node device tree (root containing one child "a")
the unindexed DFS yields exactly the node names ["", "a"] and then ends,
but the indexed DFS iterator yields "", "a", "a", "a", ... forever: the
builder leaves the child's `next` pointer aimed at the child itself, so
`first_child.or(next)` never becomes null and the name sequences differ
from position 2 on.  This contradicts the code's own documentation of
`DTINode::next` ("either the next sibling node or the next node in DFS
(some higher up node)") — the claim is the intent and the code is wrong. -/
theorem c2_indexed_dfs_diverges :
    devtree_new bufTwoNodes = .ok () ∧
    node_names (items_from bufTwoNodes ⟨40, none⟩).1 = [[], [97]] ∧
    (items_from bufTwoNodes ⟨40, none⟩).2 = .ended ∧
    devtree_index_new 48 24 8 bufTwoNodes 1000 = .ok 0 c2nodes ∧
    dfs_names c2nodes (some 0) 4 = [[], [97], [97], [97]] ∧
    (∀ k, dfs_nth c2nodes (some 0) (k + 1) = some 1) := by
  refine ⟨by decide, ?_, ?_, build_two_nodes_eval, by decide, ?_⟩
  · rw [c2_items_eval]; decide
  · rw [c2_items_eval]
  · intro k
    show dfs_nth c2nodes (dfs_next c2nodes 0) k = some 1
    rw [show dfs_next c2nodes 0 = some 1 from by decide]
    exact dfs_self_loop_aux k

/-- C3: after the builder completes on the same valid two-node tree, the
`next` invariant of the claim fails: the child (node 1, parent = node 0)
has `next = some 1` — a pointer to ITSELF, which is neither a next
sibling (a different node with the same parent) nor the parent's
next-in-DFS successor; and the root (node 0, no parent, no sibling) has
`next = some 1` — its own child — where the claim requires null.  This
also contradicts the code's own `DTINode::next` doc comment. -/
theorem c3_next_pointer_violated :
    devtree_new bufTwoNodes = .ok () ∧
    devtree_index_new 48 24 8 bufTwoNodes 1000 = .ok 0 c2nodes ∧
    (∃ nd1, c2nodes[1]? = some nd1 ∧ nd1.parent = some 0 ∧ nd1.next = some 1) ∧
    (∃ nd0, c2nodes[0]? = some nd0 ∧ nd0.parent = none ∧ nd0.next = some 1) := by
  exact ⟨by decide, build_two_nodes_eval,
    ⟨⟨some 0, none, some 1, [97], 0, []⟩, by decide, by decide, by decide⟩,
    ⟨⟨none, some 1, some 1, [], 0, []⟩, by decide, by decide, by decide⟩⟩

/-! ### C4: index layout and allocation -/

theorem align_off_of_mod_zero {aN f : Nat} (h : f % aN = 0) : align_off aN f = f := by
  unfold align_off
  rw [h, Nat.sub_zero, Nat.mod_self]
  rfl

theorem allocate_aligned_ok {aN sz bufLen off front2 : Nat} (hal : off % aN = 0)
    (h : allocate_aligned aN sz bufLen off = some front2) :
    front2 = off + sz ∧ front2 < bufLen := by
  unfold allocate_aligned at h
  rw [align_off_of_mod_zero hal] at h
  by_cases hc : off + sz < bufLen
  · rw [if_pos hc] at h
    have := Option.some.inj h
    omega
  · rw [if_neg hc] at h
    exact absurd h (by simp)

theorem set_node_length (ns : List IdxNode) (i : Nat) (f : IdxNode → IdxNode) :
    (set_node ns i f).length = ns.length := by
  unfold set_node
  cases ns[i]? <;> simp

theorem total_props_cons (a : IdxNode) (t : List IdxNode) :
    total_props (a :: t) = a.num_props + total_props t := by
  simp [total_props]

theorem total_props_append_one (ns : List IdxNode) (x : IdxNode) :
    total_props (ns ++ [x]) = total_props ns + x.num_props := by
  simp [total_props]

theorem total_props_set_general :
    ∀ (ns : List IdxNode) (i : Nat) (nd x : IdxNode),
      ns[i]? = some nd →
      total_props (ns.set i x) + nd.num_props = total_props ns + x.num_props := by
  intro ns
  induction ns with
  | nil => intro i nd x h; simp at h
  | cons a t ih =>
    intro i nd x h
    cases i with
    | zero =>
      simp only [List.getElem?_cons_zero] at h
      have ha : a = nd := Option.some.inj h
      subst ha
      rw [List.set_cons_zero, total_props_cons, total_props_cons]
      omega
    | succ i =>
      simp only [List.getElem?_cons_succ] at h
      rw [List.set_cons_succ, total_props_cons, total_props_cons]
      have := ih i nd x h
      omega

theorem set_node_props_preserved {f : IdxNode → IdxNode}
    (hf : ∀ nd, (f nd).num_props = nd.num_props) (ns : List IdxNode) (i : Nat) :
    total_props (set_node ns i f) = total_props ns := by
  unfold set_node
  cases hi : ns[i]? with
  | none => rfl
  | some nd =>
    show total_props (ns.set i (f nd)) = total_props ns
    have := total_props_set_general ns i nd (f nd) hi
    rw [hf nd] at this
    omega

theorem set_node_props_inc {f : IdxNode → IdxNode} {ns : List IdxNode} {i : Nat} {nd : IdxNode}
    (hf : ∀ nd, (f nd).num_props = nd.num_props + 1) (hi : ns[i]? = some nd) :
    total_props (set_node ns i f) = total_props ns + 1 := by
  unfold set_node
  rw [hi]
  show total_props (ns.set i (f nd)) = total_props ns + 1
  have := total_props_set_general ns i nd (f nd) hi
  rw [hf nd] at this
  omega

theorem set_node_parent_preserved {f : IdxNode → IdxNode}
    (hf : ∀ nd, (f nd).parent = nd.parent) (ns : List IdxNode) (i j : Nat) :
    ((set_node ns i f)[j]?).map (fun nd => nd.parent) = (ns[j]?).map (fun nd => nd.parent) := by
  unfold set_node
  cases hi : ns[i]? with
  | none => rfl
  | some nd =>
    rw [List.getElem?_set]
    by_cases hij : i = j
    · subst hij
      have hlt : i < ns.length := by
        by_contra hc
        rw [List.getElem?_eq_none (by omega)] at hi
        exact absurd hi (by simp)
      simp [hlt, hi, hf nd]
    · simp [hij]

theorem link_prev_sibling_length (m p : Nat) (ns1 : List IdxNode) :
    (link_prev_sibling m p ns1).length = ns1.length := by
  unfold link_prev_sibling
  split <;> simp [set_node_length]

theorem link_prev_sibling_props (m p : Nat) (ns1 : List IdxNode) :
    total_props (link_prev_sibling m p ns1) = total_props ns1 := by
  unfold link_prev_sibling
  split
  · exact set_node_props_preserved (f := fun nd => { nd with next := some m }) (fun _ => rfl) _ _
  · rfl

theorem link_prev_sibling_parent (m p : Nat) (ns1 : List IdxNode) (jj : Nat) :
    ((link_prev_sibling m p ns1)[jj]?).map (fun nd => nd.parent) =
      (ns1[jj]?).map (fun nd => nd.parent) := by
  unfold link_prev_sibling
  split
  · exact set_node_parent_preserved (f := fun nd => { nd with next := some m }) (fun _ => rfl) _ _ _
  · rfl

theorem link_first_child_length (m p : Nat) (ns3 : List IdxNode) :
    (link_first_child m p ns3).length = ns3.length := by
  unfold link_first_child
  split
  · split_ifs <;> simp [set_node_length]
  · rfl

theorem link_first_child_props (m p : Nat) (ns3 : List IdxNode) :
    total_props (link_first_child m p ns3) = total_props ns3 := by
  unfold link_first_child
  split
  · split_ifs
    · exact set_node_props_preserved (f := fun nd => { nd with first_child := some m }) (fun _ => rfl) _ _
    · rfl
  · rfl

theorem link_first_child_parent (m p : Nat) (ns3 : List IdxNode) (jj : Nat) :
    ((link_first_child m p ns3)[jj]?).map (fun nd => nd.parent) =
      (ns3[jj]?).map (fun nd => nd.parent) := by
  unfold link_first_child
  split
  · split_ifs
    · exact set_node_parent_preserved (f := fun nd => { nd with first_child := some m }) (fun _ => rfl) _ _ _
    · rfl
  · rfl

theorem parsed_node_link_length (m p q : Nat) (ns0 : List IdxNode) :
    (parsed_node_link m p q ns0).length = ns0.length := by
  unfold parsed_node_link
  rw [link_first_child_length, set_node_length, link_prev_sibling_length, set_node_length]

theorem parsed_node_link_props (m p q : Nat) (ns0 : List IdxNode) :
    total_props (parsed_node_link m p q ns0) = total_props ns0 := by
  unfold parsed_node_link
  rw [link_first_child_props,
      set_node_props_preserved (f := fun nd => { nd with next := some m }) (fun _ => rfl),
      link_prev_sibling_props,
      set_node_props_preserved (f := fun nd => { nd with next := some m }) (fun _ => rfl)]

theorem parsed_node_link_parent (m p q : Nat) (ns0 : List IdxNode) (jj : Nat) :
    ((parsed_node_link m p q ns0)[jj]?).map (fun nd => nd.parent) =
      (ns0[jj]?).map (fun nd => nd.parent) := by
  unfold parsed_node_link
  rw [link_first_child_parent,
      set_node_parent_preserved (f := fun nd => { nd with next := some m }) (fun _ => rfl),
      link_prev_sibling_parent,
      set_node_parent_preserved (f := fun nd => { nd with next := some m }) (fun _ => rfl)]

theorem parsed_node_ok {nS aN bufLen : Nat} {name : List Nat} {st st2 : BState}
    (h : parsed_node nS aN bufLen name st = .ok st2)
    (hal : st.front_off % aN = 0) :
    st2.nodes.length = st.nodes.length + 1 ∧
    total_props st2.nodes = total_props st.nodes ∧
    st2.front_off = st.front_off + nS ∧
    st2.front_off < bufLen ∧
    st2.cur = some st.nodes.length ∧
    st2.prev = some st.nodes.length ∧
    st2.in_node_header = true ∧
    (∀ (j : Nat), (st2.nodes[j]?).map (fun nd => nd.parent) =
      ((st.nodes ++ [(⟨st.cur, none, none, name, 0, []⟩ : IdxNode)])[j]?).map
        (fun nd => nd.parent)) := by
  unfold parsed_node at h
  split at h
  · exact absurd h (by simp)
  · rename_i front2 halloc
    obtain ⟨hf2, hfb⟩ := allocate_aligned_ok hal halloc
    dsimp only at h
    split at h
    · rename_i hcur _
      injection h with h2
      subst h2
      refine ⟨by simp, by simp [total_props_append_one], by simpa using hf2, by simpa using hfb,
        rfl, rfl, rfl, ?_⟩
      intro j
      rfl
    · exact absurd h (by simp)
    · rename_i p q hcur hprev
      injection h with h2
      subst h2
      refine ⟨?_, ?_, by simpa using hf2, by simpa using hfb, rfl, rfl, rfl, ?_⟩
      · simp [parsed_node_link_length]
      · simp [parsed_node_link_props, total_props_append_one]
      · intro j
        exact parsed_node_link_parent _ _ _ _ _

theorem parsed_prop_ok {pS aN bufLen : Nat} {pb : List Nat} {noff : Nat} {st st2 : BState}
    (h : parsed_prop pS aN bufLen pb noff st = .ok st2)
    (hal : st.front_off % aN = 0)
    (hcv : ∀ c, st.cur = some c → c < st.nodes.length) :
    st2.nodes.length = st.nodes.length ∧
    total_props st2.nodes = total_props st.nodes + 1 ∧
    st2.front_off = st.front_off + pS ∧
    st2.front_off < bufLen ∧
    st2.cur = st.cur ∧
    st2.prev = st.prev ∧
    st2.in_node_header = st.in_node_header ∧
    st.in_node_header = true ∧
    (∀ (j : Nat), (st2.nodes[j]?).map (fun nd => nd.parent) =
      (st.nodes[j]?).map (fun nd => nd.parent)) := by
  unfold parsed_prop at h
  split at h
  · exact absurd h (by simp)
  · rename_i hhdr
    split at h
    · exact absurd h (by simp)
    · rename_i front2 halloc
      obtain ⟨hf2, hfb⟩ := allocate_aligned_ok hal halloc
      split at h
      · exact absurd h (by simp)
      · rename_i c hcur
        injection h with h2
        subst h2
        have hclt : c < st.nodes.length := hcv c hcur
        obtain ⟨nd, hnd⟩ : ∃ nd, st.nodes[c]? = some nd := by
          rw [List.getElem?_eq_getElem hclt]
          exact ⟨_, rfl⟩
        refine ⟨by simp [set_node_length], ?_, hf2, hfb, rfl, rfl, rfl, ?_, ?_⟩
        · exact set_node_props_inc (fun _ => rfl) hnd
        · simpa using hhdr
        · intro j
          dsimp only
          refine set_node_parent_preserved ?_ st.nodes c j
          intro nd
          rfl

theorem parsed_end_node_ok {st st2 : BState} (h : parsed_end_node st = .ok st2) :
    st2.nodes = st.nodes ∧ st2.front_off = st.front_off ∧ st2.prev = st.prev ∧
    st2.in_node_header = false ∧
    ∃ c nd, st.cur = some c ∧ st.nodes[c]? = some nd ∧ st2.cur = nd.parent := by
  unfold parsed_end_node at h
  split at h
  · exact absurd h (by simp)
  · rename_i c hcur
    split at h
    · exact absurd h (by simp)
    · rename_i nd hnd
      injection h with h2
      subst h2
      exact ⟨rfl, rfl, rfl, rfl, c, nd, hcur, hnd, rfl⟩

theorem next_devtree_item_of_failed {buf : Buf} {st : DevTreeIterSt} {o : Nat}
    (h : next_devtree_token buf st.offset = .failed o) :
    next_devtree_item buf st = .halt ⟨o, st.parentOff⟩ := by
  rw [next_devtree_item]
  split <;> simp_all

theorem next_devtree_item_of_endTok {buf : Buf} {st : DevTreeIterSt} {o : Nat}
    (h : next_devtree_token buf st.offset = .endTok o) :
    next_devtree_item buf st = .halt ⟨o, st.parentOff⟩ := by
  rw [next_devtree_item]
  split <;> simp_all

theorem next_devtree_item_of_panicked {buf : Buf} {st : DevTreeIterSt}
    (h : next_devtree_token buf st.offset = .panicked) :
    next_devtree_item buf st = .panicked := by
  rw [next_devtree_item]
  split <;> simp_all

theorem next_devtree_item_of_begin {buf : Buf} {st : DevTreeIterSt} {name : List Nat} {o : Nat}
    (h : next_devtree_token buf st.offset = .ok (.beginNode name) o) :
    next_devtree_item buf st =
      .item (.node ⟨name, st.offset, ⟨o, some st.offset⟩⟩) ⟨o, some st.offset⟩ := by
  rw [next_devtree_item]
  split <;> simp_all

theorem next_devtree_item_of_prop_some {buf : Buf} {st : DevTreeIterSt} {pb : List Nat}
    {noff o po : Nat}
    (h : next_devtree_token buf st.offset = .ok (.propTok pb noff) o)
    (hpo : st.parentOff = some po) :
    next_devtree_item buf st = .item (.prop ⟨po, pb, noff⟩) ⟨o, some po⟩ := by
  rw [next_devtree_item]
  split <;> simp_all

theorem next_devtree_item_of_prop_none {buf : Buf} {st : DevTreeIterSt} {pb : List Nat}
    {noff o : Nat}
    (h : next_devtree_token buf st.offset = .ok (.propTok pb noff) o)
    (hpo : st.parentOff = none) :
    next_devtree_item buf st = .halt ⟨o, none⟩ := by
  rw [next_devtree_item]
  split <;> simp_all

theorem items_from_congr {buf : Buf} {st st' : DevTreeIterSt}
    (h : next_devtree_item buf st = next_devtree_item buf st') :
    items_from buf st = items_from buf st' := by
  cases hm : next_devtree_item buf st' with
  | panicked => rw [items_from_eq_panicked (h.trans hm), items_from_eq_panicked hm]
  | halt s => rw [items_from_eq_halt (h.trans hm), items_from_eq_halt hm]
  | item i s2 => rw [items_from_eq_item (h.trans hm), items_from_eq_item hm]

theorem build_loop_eq_panicked {nS pS aN bufLen : Nat} {buf : Buf} {off : Nat} {st : BState}
    (h : next_devtree_token buf off = .panicked) :
    build_loop nS pS aN bufLen buf off st = .panicked := by
  rw [build_loop]
  split <;> simp_all

theorem build_loop_of_begin {nS pS aN bufLen : Nat} {buf : Buf} {off : Nat} {st : BState}
    {name : List Nat} {o : Nat}
    (htok : next_devtree_token buf off = .ok (.beginNode name) o) :
    build_loop nS pS aN bufLen buf off st =
      (match parsed_node nS aN bufLen name st with
       | .panicked => .panicked
       | .errored e => .errored e
       | .ok st2 => build_loop nS pS aN bufLen buf o st2) := by
  rw [build_loop]
  split <;> simp_all

theorem build_loop_of_prop {nS pS aN bufLen : Nat} {buf : Buf} {off : Nat} {st : BState}
    {pb : List Nat} {noff o : Nat}
    (htok : next_devtree_token buf off = .ok (.propTok pb noff) o) :
    build_loop nS pS aN bufLen buf off st =
      (match parsed_prop pS aN bufLen pb noff st with
       | .panicked => .panicked
       | .errored e => .errored e
       | .ok st2 => build_loop nS pS aN bufLen buf o st2) := by
  rw [build_loop]
  split <;> simp_all

theorem build_loop_of_endNode {nS pS aN bufLen : Nat} {buf : Buf} {off : Nat} {st : BState}
    {o : Nat}
    (htok : next_devtree_token buf off = .ok .endNode o) :
    build_loop nS pS aN bufLen buf off st =
      (match parsed_end_node st with
       | .panicked => .panicked
       | .errored e => .errored e
       | .ok st2 => build_loop nS pS aN bufLen buf o st2) := by
  rw [build_loop]
  split <;> simp_all

theorem parent_valid_of_append {ns : List IdxNode} {cur : Option Nat} (name : List Nat)
    (hcv : ∀ c, cur = some c → c < ns.length)
    (hpar : ∀ (i : Nat) nd p, ns[i]? = some nd → nd.parent = some p → p < ns.length) :
    ∀ (i : Nat) nd p, (ns ++ [(⟨cur, none, none, name, 0, []⟩ : IdxNode)])[i]? = some nd →
      nd.parent = some p → p < ns.length + 1 := by
  intro i nd p h hp
  by_cases hi : i < ns.length
  · rw [List.getElem?_append_left hi] at h
    exact Nat.lt_succ_of_lt (hpar i nd p h hp)
  · rw [List.getElem?_append_right (by omega)] at h
    cases hk : i - ns.length with
    | zero =>
      rw [hk] at h
      simp only [List.getElem?_cons_zero] at h
      injection h with h2
      subst h2
      exact Nat.lt_succ_of_lt (hcv p hp)
    | succ k =>
      rw [hk] at h
      simp at h

theorem parent_valid_transport {ns2 ns' : List IdxNode}
    (hmap : ∀ (j : Nat), (ns2[j]?).map (fun nd => nd.parent) =
      (ns'[j]?).map (fun nd => nd.parent))
    (hlen : ns2.length = ns'.length)
    (hp' : ∀ (i : Nat) nd p, ns'[i]? = some nd → nd.parent = some p → p < ns'.length) :
    ∀ (i : Nat) nd p, ns2[i]? = some nd → nd.parent = some p → p < ns2.length := by
  intro i nd p h hp
  have hm := hmap i
  rw [h] at hm
  cases h' : ns'[i]? with
  | none => rw [h'] at hm; simp at hm
  | some nd' =>
    rw [h'] at hm
    simp only [Option.map_some'] at hm
    injection hm with hm2
    rw [hlen]
    exact hp' i nd' p h' (by rw [← hm2]; exact hp)

/-- The builder's main loop tracks the unindexed item iterator: on success
the arena gains exactly one record per node item and one `num_props` tick
per property item, the bump allocator advances by exactly
`count_nodes·nodeSize + count_props·propSize`, and unless nothing was
allocated the final front offset lies strictly inside the buffer. -/
theorem build_sync {nS pS aN bufLen : Nat} {buf : Buf} (hdN : aN ∣ nS) (hdP : aN ∣ pS) :
    ∀ (fuel : Nat), ∀ (off : Nat) (st : BState) (pOff : Option Nat) (fin : BState),
      buf.length - off < fuel →
      build_loop nS pS aN bufLen buf off st = .ok fin →
      st.in_node_header = pOff.isSome →
      (∀ c, st.cur = some c → c < st.nodes.length) →
      (st.in_node_header = true → st.cur.isSome) →
      (∀ (i : Nat) nd p, st.nodes[i]? = some nd → nd.parent = some p →
        p < st.nodes.length) →
      st.front_off % aN = 0 →
      fin.nodes.length = st.nodes.length + count_nodes (items_from buf ⟨off, pOff⟩).1 ∧
      total_props fin.nodes =
        total_props st.nodes + count_props (items_from buf ⟨off, pOff⟩).1 ∧
      fin.front_off = st.front_off + count_nodes (items_from buf ⟨off, pOff⟩).1 * nS +
        count_props (items_from buf ⟨off, pOff⟩).1 * pS ∧
      (fin.front_off = st.front_off ∨ fin.front_off < bufLen) := by
  intro fuel
  induction fuel with
  | zero => intro off st pOff fin hf; omega
  | succ n ih =>
    intro off st pOff fin hf hbl hflag hcv hhc hpar hal
    cases htok : next_devtree_token buf off with
    | panicked =>
      rw [build_loop_eq_panicked htok] at hbl
      exact absurd hbl (by simp)
    | failed o =>
      rw [build_loop_eq_failed htok] at hbl
      injection hbl with h2
      subst h2
      have hh : next_devtree_item buf ⟨off, pOff⟩ = .halt ⟨o, pOff⟩ :=
        next_devtree_item_of_failed htok
      rw [items_from_eq_halt hh]
      exact ⟨by simp [count_nodes], by simp [count_props],
        by simp [count_nodes, count_props], Or.inl rfl⟩
    | endTok o =>
      rw [build_loop_eq_endTok htok] at hbl
      injection hbl with h2
      subst h2
      have hh : next_devtree_item buf ⟨off, pOff⟩ = .halt ⟨o, pOff⟩ :=
        next_devtree_item_of_endTok htok
      rw [items_from_eq_halt hh]
      exact ⟨by simp [count_nodes], by simp [count_props],
        by simp [count_nodes, count_props], Or.inl rfl⟩
    | ok t o =>
      have hb := next_devtree_token_ok_bounds htok
      cases t with
      | beginNode name =>
        rw [build_loop_of_begin htok] at hbl
        cases hpn : parsed_node nS aN bufLen name st with
        | panicked => rw [hpn] at hbl; exact absurd hbl (by simp)
        | errored e => rw [hpn] at hbl; exact absurd hbl (by simp)
        | ok st2 =>
          rw [hpn] at hbl
          obtain ⟨hlen, hprops, hfront, hfb, hcur, hprev, hhdr, hmap⟩ := parsed_node_ok hpn hal
          obtain ⟨k, hk⟩ := hdN
          have hpar2 : ∀ (i : Nat) nd p, st2.nodes[i]? = some nd → nd.parent = some p →
              p < st2.nodes.length := by
            refine parent_valid_transport hmap (by simp [hlen]) ?_
            intro i nd p hnd hp
            have := parent_valid_of_append name hcv hpar i nd p hnd hp
            simpa using this
          have ihres := ih o st2 (some off) fin (by omega) hbl
            (by rw [hhdr]; rfl)
            (by intro c hc; rw [hcur] at hc; injection hc with hc2; omega)
            (by intro _; rw [hcur]; rfl)
            hpar2
            (by rw [hfront, hk, Nat.add_mul_mod_self_left]; exact hal)
          obtain ⟨r1, r2, r3, r4⟩ := ihres
          have hitem : next_devtree_item buf ⟨off, pOff⟩ =
              .item (.node ⟨name, off, ⟨o, some off⟩⟩) ⟨o, some off⟩ :=
            next_devtree_item_of_begin htok
          have hcn : count_nodes (items_from buf ⟨off, pOff⟩).1 =
              count_nodes (items_from buf ⟨o, some off⟩).1 + 1 := by
            rw [items_from_eq_item hitem]
            simp [count_nodes, List.countP_cons]
          have hcp : count_props (items_from buf ⟨off, pOff⟩).1 =
              count_props (items_from buf ⟨o, some off⟩).1 := by
            rw [items_from_eq_item hitem]
            simp [count_props, List.countP_cons]
          refine ⟨by rw [hcn]; omega, by rw [hcp]; omega, ?_, ?_⟩
          · rw [hcn, hcp]
            calc fin.front_off
                = st2.front_off + count_nodes (items_from buf ⟨o, some off⟩).1 * nS +
                  count_props (items_from buf ⟨o, some off⟩).1 * pS := r3
              _ = st.front_off + nS + count_nodes (items_from buf ⟨o, some off⟩).1 * nS +
                  count_props (items_from buf ⟨o, some off⟩).1 * pS := by rw [hfront]
              _ = st.front_off + (count_nodes (items_from buf ⟨o, some off⟩).1 + 1) * nS +
                  count_props (items_from buf ⟨o, some off⟩).1 * pS := by ring
          · rcases r4 with h4 | h4
            · exact Or.inr (by rw [h4]; exact hfb)
            · exact Or.inr h4
      | propTok pb noff =>
        cases hpo : pOff with
        | none =>
          rw [hpo] at hflag
          simp only [Option.isSome_none] at hflag
          have hpp : parsed_prop pS aN bufLen pb noff st = .errored .parseError := by
            unfold parsed_prop
            rw [if_pos hflag]
          rw [build_loop_of_prop htok, hpp] at hbl
          exact absurd hbl (by simp)
        | some po =>
          rw [hpo] at hflag
          simp only [Option.isSome_some] at hflag
          rw [build_loop_of_prop htok] at hbl
          cases hpp : parsed_prop pS aN bufLen pb noff st with
          | panicked => rw [hpp] at hbl; exact absurd hbl (by simp)
          | errored e => rw [hpp] at hbl; exact absurd hbl (by simp)
          | ok st2 =>
            rw [hpp] at hbl
            obtain ⟨hlen, hprops, hfront, hfb, hcur, hprev, hhdr, _hin, hmap⟩ :=
              parsed_prop_ok hpp hal hcv
            obtain ⟨k, hk⟩ := hdP
            have ihres := ih o st2 (some po) fin (by omega) hbl
              (by rw [hhdr, hflag]; rfl)
              (by intro c hc; rw [hcur] at hc; rw [hlen]; exact hcv c hc)
              (by intro _; rw [hcur]; exact hhc hflag)
              (parent_valid_transport hmap hlen hpar)
              (by rw [hfront, hk, Nat.add_mul_mod_self_left]; exact hal)
            obtain ⟨r1, r2, r3, r4⟩ := ihres
            subst hpo
            have hitem : next_devtree_item buf ⟨off, some po⟩ =
                .item (.prop ⟨po, pb, noff⟩) ⟨o, some po⟩ :=
              next_devtree_item_of_prop_some htok rfl
            have hcn : count_nodes (items_from buf ⟨off, some po⟩).1 =
                count_nodes (items_from buf ⟨o, some po⟩).1 := by
              rw [items_from_eq_item hitem]
              simp [count_nodes, List.countP_cons]
            have hcp : count_props (items_from buf ⟨off, some po⟩).1 =
                count_props (items_from buf ⟨o, some po⟩).1 + 1 := by
              rw [items_from_eq_item hitem]
              simp [count_props, List.countP_cons]
            refine ⟨by rw [hcn]; omega, by rw [hcp]; omega, ?_, ?_⟩
            · rw [hcn, hcp]
              calc fin.front_off
                  = st2.front_off + count_nodes (items_from buf ⟨o, some po⟩).1 * nS +
                    count_props (items_from buf ⟨o, some po⟩).1 * pS := r3
                _ = st.front_off + pS + count_nodes (items_from buf ⟨o, some po⟩).1 * nS +
                    count_props (items_from buf ⟨o, some po⟩).1 * pS := by rw [hfront]
                _ = st.front_off + count_nodes (items_from buf ⟨o, some po⟩).1 * nS +
                    (count_props (items_from buf ⟨o, some po⟩).1 + 1) * pS := by ring
            · rcases r4 with h4 | h4
              · exact Or.inr (by rw [h4]; exact hfb)
              · exact Or.inr h4
      | endNode =>
        rw [build_loop_of_endNode htok] at hbl
        cases hpe : parsed_end_node st with
        | panicked => rw [hpe] at hbl; exact absurd hbl (by simp)
        | errored e => rw [hpe] at hbl; exact absurd hbl (by simp)
        | ok st2 =>
          rw [hpe] at hbl
          obtain ⟨hnodes, hfront, hprev, hhdr, c, nd, hcurc, hnd, hcur2⟩ :=
            parsed_end_node_ok hpe
          have ihres := ih o st2 none fin (by omega) hbl
            (by rw [hhdr]; rfl)
            (by
              intro p hp
              rw [hcur2] at hp
              rw [hnodes]
              exact hpar c nd p hnd hp)
            (by intro hc; rw [hhdr] at hc; exact absurd hc (by simp))
            (by rw [hnodes]; exact hpar)
            (by rw [hfront]; exact hal)
          obtain ⟨r1, r2, r3, r4⟩ := ihres
          have hstep : next_devtree_item buf ⟨off, pOff⟩ = next_devtree_item buf ⟨o, none⟩ :=
            next_devtree_item_step_endNode htok
          have hitems : items_from buf ⟨off, pOff⟩ = items_from buf ⟨o, none⟩ :=
            items_from_congr hstep
          rw [hitems]
          refine ⟨by rw [r1, hnodes], by rw [r2, hnodes], by rw [r3, hfront], ?_⟩
          rw [hfront] at r4
          exact r4
      | nop =>
        rw [build_loop_step_nop htok] at hbl
        have ihres := ih o st pOff fin (by omega) hbl hflag hcv hhc hpar hal
        have hstep : next_devtree_item buf ⟨off, pOff⟩ = next_devtree_item buf ⟨o, pOff⟩ :=
          next_devtree_item_step_nop htok
        have hitems : items_from buf ⟨off, pOff⟩ = items_from buf ⟨o, pOff⟩ :=
          items_from_congr hstep
        rw [hitems]
        exact ihres

theorem init_builder_eq_panicked {nS aN bufLen : Nat} {buf : Buf} {off : Nat} {st : BState}
    (h : next_devtree_token buf off = .panicked) :
    init_builder nS aN bufLen buf off st = .panicked := by
  rw [init_builder]
  split <;> simp_all

theorem init_builder_eq_failed {nS aN bufLen : Nat} {buf : Buf} {off : Nat} {st : BState}
    {o : Nat} (h : next_devtree_token buf off = .failed o) :
    init_builder nS aN bufLen buf off st = .errored .parseError := by
  rw [init_builder]
  split <;> simp_all

theorem init_builder_eq_endTok {nS aN bufLen : Nat} {buf : Buf} {off : Nat} {st : BState}
    {o : Nat} (h : next_devtree_token buf off = .endTok o) :
    init_builder nS aN bufLen buf off st = .errored .parseError := by
  rw [init_builder]
  split <;> simp_all

theorem init_builder_eq_prop {nS aN bufLen : Nat} {buf : Buf} {off : Nat} {st : BState}
    {pb : List Nat} {noff o : Nat}
    (h : next_devtree_token buf off = .ok (.propTok pb noff) o) :
    init_builder nS aN bufLen buf off st = .errored .parseError := by
  rw [init_builder]
  split <;> simp_all

theorem init_builder_eq_endNode {nS aN bufLen : Nat} {buf : Buf} {off : Nat} {st : BState}
    {o : Nat} (h : next_devtree_token buf off = .ok .endNode o) :
    init_builder nS aN bufLen buf off st = .errored .parseError := by
  rw [init_builder]
  split <;> simp_all

theorem init_builder_of_begin {nS aN bufLen : Nat} {buf : Buf} {off : Nat} {st : BState}
    {name : List Nat} {o : Nat}
    (h : next_devtree_token buf off = .ok (.beginNode name) o) :
    init_builder nS aN bufLen buf off st =
      (match parsed_node nS aN bufLen name st with
       | .panicked => .panicked
       | .errored e => .errored e
       | .ok st2 => .ok st2 o) := by
  rw [init_builder]
  split <;> simp_all

theorem init_builder_of_nop {nS aN bufLen : Nat} {buf : Buf} {off : Nat} {st : BState}
    {o : Nat} (h : next_devtree_token buf off = .ok .nop o) :
    init_builder nS aN bufLen buf off st = init_builder nS aN bufLen buf o st := by
  rw [init_builder]
  split <;> simp_all

/-- Inversion of the init loop from the fresh builder state: on success
the arena holds exactly the root record, the allocator sits at
`nodeSize` (which fits strictly inside the buffer), and the unindexed
item stream from the same start offset begins with the corresponding
root node item. -/
theorem init_inv {nS aN bufLen : Nat} {buf : Buf} {st1 : BState} {off1 : Nat} :
    ∀ (fuel off : Nat), buf.length - off < fuel →
    init_builder nS aN bufLen buf off ⟨[], 0, none, none, false⟩ = .ok st1 off1 →
    ∃ (name : List Nat) (b : Nat),
      st1 = ⟨[⟨none, none, none, name, 0, []⟩], nS, some 0, some 0, true⟩ ∧
      nS < bufLen ∧
      items_from buf ⟨off, none⟩ =
        ((Item.node ⟨name, b, ⟨off1, some b⟩⟩) :: (items_from buf ⟨off1, some b⟩).1,
         (items_from buf ⟨off1, some b⟩).2) := by
  intro fuel
  induction fuel with
  | zero => intro off hf; omega
  | succ n ih =>
    intro off hf hinit
    cases htok : next_devtree_token buf off with
    | panicked =>
      rw [init_builder_eq_panicked htok] at hinit
      exact absurd hinit (by simp)
    | failed o =>
      rw [init_builder_eq_failed htok] at hinit
      exact absurd hinit (by simp)
    | endTok o =>
      rw [init_builder_eq_endTok htok] at hinit
      exact absurd hinit (by simp)
    | ok t o =>
      have hb := next_devtree_token_ok_bounds htok
      cases t with
      | beginNode name =>
        rw [init_builder_of_begin htok] at hinit
        cases hpn : parsed_node nS aN bufLen name ⟨[], 0, none, none, false⟩ with
        | panicked => rw [hpn] at hinit; exact absurd hinit (by simp)
        | errored e => rw [hpn] at hinit; exact absurd hinit (by simp)
        | ok st2 =>
          rw [hpn] at hinit
          injection hinit with h1 h2
          unfold parsed_node at hpn
          split at hpn
          · exact absurd hpn (by simp)
          · rename_i front2 halloc
            obtain ⟨hf2, hfb⟩ := allocate_aligned_ok (Nat.zero_mod aN) halloc
            injection hpn with h3
            refine ⟨name, off, ?_, by omega, ?_⟩
            · rw [← h1, ← h3]
              simp only [List.nil_append, List.length_nil]
              have : front2 = nS := by omega
              rw [this]
            · have hitem : next_devtree_item buf ⟨off, none⟩ =
                  .item (.node ⟨name, off, ⟨o, some off⟩⟩) ⟨o, some off⟩ :=
                next_devtree_item_of_begin htok
              rw [items_from_eq_item hitem]
              rw [h2]
      | propTok pb noff =>
        rw [init_builder_eq_prop htok] at hinit
        exact absurd hinit (by simp)
      | endNode =>
        rw [init_builder_eq_endNode htok] at hinit
        exact absurd hinit (by simp)
      | nop =>
        rw [init_builder_of_nop htok] at hinit
        obtain ⟨name, b, h1, h2, h3⟩ := ih o (by omega) hinit
        refine ⟨name, b, h1, h2, ?_⟩
        have hstep : next_devtree_item buf ⟨off, none⟩ = next_devtree_item buf ⟨o, none⟩ :=
          next_devtree_item_step_nop htok
        have heq : items_from buf ⟨off, none⟩ = items_from buf ⟨o, none⟩ :=
          items_from_congr hstep
        rw [heq]
        exact h3

/-- C4. `get_layout` computes `NodeCount·nodeSize + PropCount·propSize`
(with alignment `align(DTINode)`), and whenever `DevTreeIndex::new`
succeeds in a caller buffer, that layout size is STRICTLY smaller than
the buffer: the arena holds exactly `NodeCount` node records and
`PropCount` property records and the bump allocator ends exactly at the
layout size, yet `aligned_ptr_in` demands `ptr + size < buf_end`, so a
buffer of exactly the layout size is always rejected with
`NotEnoughMemory`. -/
theorem c4_get_layout {nS pS aN bufLen r : Nat} {buf : Buf} {ns : List IdxNode}
    (hdN : aN ∣ nS) (hdP : aN ∣ pS)
    (h : devtree_index_new nS pS aN buf bufLen = .ok r ns) :
    get_layout_size nS pS buf = ns.length * nS + total_props ns * pS ∧
    get_layout_size nS pS buf < bufLen := by
  unfold devtree_index_new at h
  split at h
  · exact absurd h (by simp)
  · exact absurd h (by simp)
  · rename_i st off1 hinit
    split at h
    · exact absurd h (by simp)
    · rename_i rr hcur
      split at h
      · exact absurd h (by simp)
      · exact absurd h (by simp)
      · rename_i fin hbl
        injection h with h1 h2
        obtain ⟨name, b, hst, hnsb, hitems⟩ :=
          init_inv (buf.length - off_dt_struct buf + 1) (off_dt_struct buf) (by omega) hinit
        subst hst
        have hsync := build_sync hdN hdP (buf.length - off1 + 1) off1 _ (some b) fin
          (by omega) hbl
          rfl
          (by intro c hc; injection hc with hc2; simp [← hc2])
          (by intro _; rfl)
          (by
            intro i nd p hnd hp
            cases i with
            | zero =>
              simp only [List.getElem?_cons_zero] at hnd
              injection hnd with he
              rw [← he] at hp
              exact absurd hp (by simp)
            | succ k => simp at hnd)
          (by
            obtain ⟨k, hk⟩ := hdN
            rw [hk]
            exact Nat.mul_mod_right aN k)
        obtain ⟨r1, r2, r3, r4⟩ := hsync
        dsimp only at r1 r2 r3 r4
        simp only [List.length_cons, List.length_nil] at r1
        have htp0 : total_props [(⟨none, none, none, name, 0, []⟩ : IdxNode)] = 0 := by
          simp [total_props]
        rw [htp0] at r2
        have hitems1 : (items_from buf ⟨off_dt_struct buf, none⟩).1 =
            Item.node ⟨name, b, ⟨off1, some b⟩⟩ :: (items_from buf ⟨off1, some b⟩).1 := by
          rw [hitems]
        have hcn : count_nodes (items_from buf ⟨off_dt_struct buf, none⟩).1 =
            count_nodes (items_from buf ⟨off1, some b⟩).1 + 1 := by
          rw [hitems1]
          simp [count_nodes, List.countP_cons]
        have hcp : count_props (items_from buf ⟨off_dt_struct buf, none⟩).1 =
            count_props (items_from buf ⟨off1, some b⟩).1 := by
          rw [hitems1]
          simp [count_props, List.countP_cons]
        have hlay : get_layout_size nS pS buf = ns.length * nS + total_props ns * pS := by
          unfold get_layout_size
          rw [hcn, hcp, ← h2, r1, r2]
          ring
        have hkey : ns.length * nS + total_props ns * pS = fin.front_off := by
          rw [← h2, r1, r2, r3]
          ring
        refine ⟨hlay, ?_⟩
        rw [hlay, hkey]
        rcases r4 with h4 | h4
        · rw [h4]
          exact hnsb
        · exact h4

theorem items_oneNode_eval : items_from bufOneNode ⟨40, none⟩ =
    ([.node ⟨[], 40, ⟨48, some 40⟩⟩], .ended) := by
  have i1 : next_devtree_item bufOneNode ⟨40, none⟩ =
      .item (.node ⟨[], 40, ⟨48, some 40⟩⟩) ⟨48, some 40⟩ := by
    rw [next_devtree_item]; decide
  have i2 : next_devtree_item bufOneNode ⟨48, some 40⟩ = .halt ⟨56, none⟩ := by
    rw [next_devtree_item_step_endNode
        (show next_devtree_token bufOneNode 48 = .ok .endNode 52 by decide)]
    rw [next_devtree_item]; decide
  rw [items_from_eq_item i1, items_from_eq_halt i2]

theorem layout_oneNode : get_layout_size 48 24 bufOneNode = 48 := by
  unfold get_layout_size
  rw [show off_dt_struct bufOneNode = 40 from by decide]
  rw [items_oneNode_eval]
  decide

theorem devnew_oneNode_48 :
    devtree_index_new 48 24 8 bufOneNode 48 = .errored .notEnoughMemory := by
  unfold devtree_index_new
  rw [show off_dt_struct bufOneNode = 40 from by decide]
  rw [init_builder_of_begin
      (show next_devtree_token bufOneNode 40 = .ok (.beginNode []) 48 by decide)]
  rw [show parsed_node 48 8 48 [] ⟨[], 0, none, none, false⟩ = .errored .notEnoughMemory
      from by decide]

theorem devnew_oneNode_49 :
    devtree_index_new 48 24 8 bufOneNode 49 =
      .ok 0 [⟨none, none, none, [], 0, []⟩] := by
  unfold devtree_index_new
  rw [show off_dt_struct bufOneNode = 40 from by decide]
  rw [init_builder_of_begin
      (show next_devtree_token bufOneNode 40 = .ok (.beginNode []) 48 by decide)]
  rw [show parsed_node 48 8 49 [] ⟨[], 0, none, none, false⟩ =
      .ok ⟨[⟨none, none, none, [], 0, []⟩], 48, some 0, some 0, true⟩ from by decide]
  have hb1 : build_loop 48 24 8 49 bufOneNode 48
      ⟨[⟨none, none, none, [], 0, []⟩], 48, some 0, some 0, true⟩ =
      .ok ⟨[⟨none, none, none, [], 0, []⟩], 48, none, some 0, false⟩ := by
    rw [build_loop_step_endNode
        (show next_devtree_token bufOneNode 48 = .ok .endNode 52 by decide)
        (show parsed_end_node ⟨[⟨none, none, none, [], 0, []⟩], 48, some 0, some 0, true⟩ =
          .ok ⟨[⟨none, none, none, [], 0, []⟩], 48, none, some 0, false⟩ by decide)]
    exact build_loop_eq_endTok (show next_devtree_token bufOneNode 52 = .endTok 56 by decide)
  dsimp only
  rw [hb1]

/-- C4, counterexample to the exact-size success part: on a minimal
single-node tree the layout size is one node record (48 bytes with the
modelled sizes), yet building the index into a caller buffer of exactly
48 bytes fails with `NotEnoughMemory`, because `aligned_ptr_in` requires
the record to end strictly before the buffer's end. -/
theorem c4_exact_size_fails :
    get_layout_size 48 24 bufOneNode = 48 ∧
    devtree_index_new 48 24 8 bufOneNode 48 = .errored .notEnoughMemory :=
  ⟨layout_oneNode, devnew_oneNode_48⟩

/-- Witness for `c4_get_layout`: the single-node tree built into a
49-byte buffer succeeds, and the layout formula and strict bound hold. -/
theorem c4_get_layout_witness :
    devtree_index_new 48 24 8 bufOneNode 49 =
      .ok 0 [⟨none, none, none, [], 0, []⟩] ∧
    (get_layout_size 48 24 bufOneNode =
        [(⟨none, none, none, [], 0, []⟩ : IdxNode)].length * 48 +
          total_props [⟨none, none, none, [], 0, []⟩] * 24 ∧
      get_layout_size 48 24 bufOneNode < 49) :=
  ⟨devnew_oneNode_49, c4_get_layout (by decide) (by decide) devnew_oneNode_49⟩

/-! ## `find_next_compatible_node` (`src/base/iters.rs` lines 114-169,
`src/base/prop.rs` lines 31-46) -/

/-- The byte string "compatible". -/
def compatibleBytes : List Nat := [99, 111, 109, 112, 97, 116, 105, 98, 108, 101]

/-- `DevTreeProp::name` via `get_prop_str`: read the NUL-terminated name
at `off_dt_strings + nameoff` in the device tree buffer and require it to
be UTF-8. -/
def prop_name (buf : Buf) (p : PropH) : Except DevTreeError (List Nat) :=
  match read_bstring0 buf (off_dt_strings buf + p.nameOff) with
  | none => .error .parseError
  | some bs => if utf8Valid bs then .ok bs else .error .strError

/-- `DevTreeProp::get_str` (`get_str_at 0`): the property value's first
NUL-terminated UTF-8 run. -/
def prop_first_string (pb : List Nat) : Except DevTreeError (List Nat) :=
  match get_string pb 0 true with
  | .error e => .error e
  | .ok (_, bs) => .ok bs

/-- The predicate closure passed to `find_next` by
`find_next_compatible_node`:
`Ok((prop.name()? == "compatible") && (prop.get_str()? == string))` — the
name is read first and its error propagates; `get_str` is only consulted
when the name equals "compatible". -/
def compat_pred (buf : Buf) (s : List Nat) (p : PropH) : Except DevTreeError Bool :=
  match prop_name buf p with
  | .error e => .error e
  | .ok nm =>
    if nm = compatibleBytes then
      match prop_first_string p.prop_buf with
      | .error e => .error e
      | .ok bs => .ok (decide (bs = s))
    else .ok false

/-- Outcome of `DevTreeIter::next_node` / `next_prop`: `found` carries
the mutated iterator state left behind in the iterator. -/
inductive NodeStep where
  | panicked
  | halt
  | found (n : NodeH) (st : DevTreeIterSt)
deriving DecidableEq, Repr

/-- `DevTreeIter::next_node` (`src/base/iters.rs` lines 116-126): loop
over items, skipping properties, until a node is produced. -/
def next_node (buf : Buf) (st : DevTreeIterSt) : NodeStep :=
  match h : next_devtree_item buf st with
  | .panicked => .panicked
  | .halt _ => .halt
  | .item (.node n) s' => .found n s'
  | .item (.prop _) s' => next_node buf s'
termination_by buf.length - st.offset
decreasing_by
  have hb := next_devtree_item_lt h
  omega

inductive PropStep where
  | panicked
  | halt
  | found (p : PropH) (st : DevTreeIterSt)
deriving DecidableEq, Repr

/-- `DevTreeIter::next_prop` (`src/base/iters.rs` lines 131-140): loop
over items, skipping node boundaries, until a property is produced. -/
def next_prop (buf : Buf) (st : DevTreeIterSt) : PropStep :=
  match h : next_devtree_item buf st with
  | .panicked => .panicked
  | .halt _ => .halt
  | .item (.prop p) s' => .found p s'
  | .item (.node _) s' => next_prop buf s'
termination_by buf.length - st.offset
decreasing_by
  have hb := next_devtree_item_lt h
  omega

theorem next_prop_lt {buf : Buf} {st : DevTreeIterSt} {p : PropH} {st' : DevTreeIterSt}
    (h : next_prop buf st = .found p st') :
    st.offset + 4 ≤ buf.length ∧ st.offset < st'.offset := by
  induction st using next_prop.induct buf with
  | case1 st hi => rw [next_prop, hi] at h; exact absurd h (by simp)
  | case2 st s hi => rw [next_prop, hi] at h; exact absurd h (by simp)
  | case3 st q s' hi =>
    rw [next_prop, hi] at h
    have hb := next_devtree_item_lt hi
    simp only [PropStep.found.injEq] at h
    exact ⟨hb.1, by rw [← h.2]; exact hb.2⟩
  | case4 st n s' hi ih =>
    rw [next_prop, hi] at h
    have hb := next_devtree_item_lt hi
    have := ih h
    exact ⟨hb.1, by omega⟩

/-- `FindNext::find_next` specialised to `DevTreePropIter` with the
compatible-string predicate (`src/base/iters.rs` lines 13-28, 162-164):
scan successive properties; a predicate error (`if let Ok(true)`) is
treated as a non-match and the scan continues. -/
def find_prop_loop (buf : Buf) (s : List Nat) (st : DevTreeIterSt) : PropStep :=
  match h : next_prop buf st with
  | .panicked => .panicked
  | .halt => .halt
  | .found p st' =>
    match compat_pred buf s p with
    | .ok true => .found p st'
    | .ok false => find_prop_loop buf s st'
    | .error _ => find_prop_loop buf s st'
termination_by buf.length - st.offset
decreasing_by
  all_goals
    have hb := next_prop_lt h
    omega

inductive CompatOut where
  | panicked
  | notFound
  | found (n : NodeH)
deriving DecidableEq, Repr

/-- `DevTreeProp::node` (`src/base/prop.rs` lines 35-37): re-parse the
owning node from the stored parent iterator (positioned at the owner's
BEGIN_NODE offset) and unwrap — a failed re-parse is a panic. -/
def prop_node (buf : Buf) (p : PropH) : CompatOut :=
  match next_node buf ⟨p.parentOff, some p.parentOff⟩ with
  | .found n _ => .found n
  | _ => .panicked

/-- `DevTreeIter::find_next_compatible_node` (`src/base/iters.rs` lines
155-169): clone the cursor, advance past one node; if one existed, scan
all following properties for the compatible match and return the owning
node of the first match. -/
def find_next_compatible_node (buf : Buf) (s : List Nat) (st : DevTreeIterSt) : CompatOut :=
  match next_node buf st with
  | .panicked => .panicked
  | .halt => .notFound
  | .found _ st1 =>
    match find_prop_loop buf s st1 with
    | .panicked => .panicked
    | .halt => .notFound
    | .found p _ => prop_node buf p

/-- Modelled from the spec: a property matches when its name reads as
"compatible" and its first string value equals the searched string. -/
def spec_compat (buf : Buf) (s : List Nat) (p : PropH) : Bool :=
  decide (prop_name buf p = .ok compatibleBytes) &&
  decide (prop_first_string p.prop_buf = .ok s)

/-- Modelled from the spec: "advance one node" — drop the item stream
through its first node item; `none` when no node remains. -/
def spec_after_one_node : List Item → Option (List Item)
  | [] => none
  | .node _ :: rest => some rest
  | .prop _ :: rest => spec_after_one_node rest

/-- Modelled from the spec: the first property item in document order
satisfying the compatible match. -/
def spec_first_compat (buf : Buf) (s : List Nat) : List Item → Option PropH
  | [] => none
  | .node _ :: rest => spec_first_compat buf s rest
  | .prop p :: rest =>
    if spec_compat buf s p then some p else spec_first_compat buf s rest

/-- Modelled from the spec: advance past one node, then return the first
matching property in document order after that point. -/
def spec_find_next_compatible (buf : Buf) (s : List Nat) (items : List Item) : Option PropH :=
  (spec_after_one_node items).bind (spec_first_compat buf s)

theorem next_node_of_item_node {buf : Buf} {st : DevTreeIterSt} {n : NodeH}
    {s' : DevTreeIterSt} (h : next_devtree_item buf st = .item (.node n) s') :
    next_node buf st = .found n s' := by
  rw [next_node]
  split <;> simp_all

theorem next_node_of_item_prop {buf : Buf} {st : DevTreeIterSt} {p : PropH}
    {s' : DevTreeIterSt} (h : next_devtree_item buf st = .item (.prop p) s') :
    next_node buf st = next_node buf s' := by
  rw [next_node]
  split <;> simp_all

theorem next_node_of_halt {buf : Buf} {st s : DevTreeIterSt}
    (h : next_devtree_item buf st = .halt s) :
    next_node buf st = .halt := by
  rw [next_node]
  split <;> simp_all

theorem next_node_of_panicked {buf : Buf} {st : DevTreeIterSt}
    (h : next_devtree_item buf st = .panicked) :
    next_node buf st = .panicked := by
  rw [next_node]
  split <;> simp_all

theorem next_prop_of_item_prop {buf : Buf} {st : DevTreeIterSt} {p : PropH}
    {s' : DevTreeIterSt} (h : next_devtree_item buf st = .item (.prop p) s') :
    next_prop buf st = .found p s' := by
  rw [next_prop]
  split <;> simp_all

theorem next_prop_of_item_node {buf : Buf} {st : DevTreeIterSt} {n : NodeH}
    {s' : DevTreeIterSt} (h : next_devtree_item buf st = .item (.node n) s') :
    next_prop buf st = next_prop buf s' := by
  rw [next_prop]
  split <;> simp_all

theorem next_prop_of_halt {buf : Buf} {st s : DevTreeIterSt}
    (h : next_devtree_item buf st = .halt s) :
    next_prop buf st = .halt := by
  rw [next_prop]
  split <;> simp_all

theorem next_prop_of_panicked {buf : Buf} {st : DevTreeIterSt}
    (h : next_devtree_item buf st = .panicked) :
    next_prop buf st = .panicked := by
  rw [next_prop]
  split <;> simp_all

theorem find_prop_loop_of_found_true {buf : Buf} {s : List Nat} {st : DevTreeIterSt}
    {p : PropH} {st' : DevTreeIterSt}
    (h : next_prop buf st = .found p st') (hc : compat_pred buf s p = .ok true) :
    find_prop_loop buf s st = .found p st' := by
  rw [find_prop_loop]
  split <;> simp_all

theorem find_prop_loop_of_found_skip {buf : Buf} {s : List Nat} {st : DevTreeIterSt}
    {p : PropH} {st' : DevTreeIterSt}
    (h : next_prop buf st = .found p st') (hc : compat_pred buf s p ≠ .ok true) :
    find_prop_loop buf s st = find_prop_loop buf s st' := by
  rw [find_prop_loop]
  split
  · simp_all
  · simp_all
  · rename_i p2 st2 hnp
    rw [h] at hnp
    injection hnp with h1 h2
    subst h1 h2
    split
    · simp_all
    · rfl
    · rfl

theorem find_prop_loop_of_halt {buf : Buf} {s : List Nat} {st : DevTreeIterSt}
    (h : next_prop buf st = .halt) :
    find_prop_loop buf s st = .halt := by
  rw [find_prop_loop]
  split <;> simp_all

theorem find_prop_loop_of_panicked {buf : Buf} {s : List Nat} {st : DevTreeIterSt}
    (h : next_prop buf st = .panicked) :
    find_prop_loop buf s st = .panicked := by
  rw [find_prop_loop]
  split <;> simp_all

/-- Every node item yielded by the unindexed iterator carries its BEGIN
token's facts: the handle's stored iterator is the state left behind, the
begin offset is at or after the old cursor, and the stored iterator is
positioned just past the BEGIN token with the begin offset recorded as
parent. -/
theorem item_node_shape {buf : Buf} {st : DevTreeIterSt} {n : NodeH} {s' : DevTreeIterSt}
    (h : next_devtree_item buf st = .item (.node n) s') :
    s' = n.after ∧ st.offset ≤ n.beginOff ∧ n.after.parentOff = some n.beginOff ∧
    n.beginOff < n.after.offset ∧
    next_devtree_token buf n.beginOff = .ok (.beginNode n.name) n.after.offset := by
  induction st using next_devtree_item.induct buf with
  | case1 st htok => rw [next_devtree_item, htok] at h; exact absurd h (by simp)
  | case2 st o htok => rw [next_devtree_item, htok] at h; exact absurd h (by simp)
  | case3 st o htok => rw [next_devtree_item, htok] at h; exact absurd h (by simp)
  | case4 st name o htok =>
    rw [next_devtree_item, htok] at h
    have hb := next_devtree_token_ok_bounds htok
    injection h with h1 h2
    injection h1 with h3
    subst h2
    subst h3
    exact ⟨rfl, Nat.le_refl _, rfl, hb.2, htok⟩
  | case5 st pb noff o htok hpo =>
    rw [next_devtree_item, htok, hpo] at h; exact absurd h (by simp)
  | case6 st pb noff o htok po hpo =>
    rw [next_devtree_item, htok, hpo] at h
    injection h with h1 h2
    exact absurd h1 (by simp)
  | case7 st o htok ih =>
    rw [next_devtree_item, htok] at h
    have hb := next_devtree_token_ok_bounds htok
    have hr := ih h
    exact ⟨hr.1, by have := hr.2.1; simp only at this; omega, hr.2.2.1, hr.2.2.2.1, hr.2.2.2.2⟩
  | case8 st o htok ih =>
    rw [next_devtree_item, htok] at h
    have hb := next_devtree_token_ok_bounds htok
    have hr := ih h
    exact ⟨hr.1, by have := hr.2.1; simp only at this; omega, hr.2.2.1, hr.2.2.2.1, hr.2.2.2.2⟩

/-- Every property item yielded by the unindexed iterator records the
parent offset the iterator was carrying, and the state left behind keeps
that parent offset. -/
theorem item_prop_shape {buf : Buf} {st : DevTreeIterSt} {p : PropH} {s' : DevTreeIterSt}
    (h : next_devtree_item buf st = .item (.prop p) s') :
    st.parentOff = some p.parentOff ∧ s'.parentOff = some p.parentOff := by
  induction st using next_devtree_item.induct buf with
  | case1 st htok => rw [next_devtree_item, htok] at h; exact absurd h (by simp)
  | case2 st o htok => rw [next_devtree_item, htok] at h; exact absurd h (by simp)
  | case3 st o htok => rw [next_devtree_item, htok] at h; exact absurd h (by simp)
  | case4 st name o htok =>
    rw [next_devtree_item, htok] at h
    injection h with h1 h2
    exact absurd h1 (by simp)
  | case5 st pb noff o htok hpo =>
    rw [next_devtree_item, htok, hpo] at h; exact absurd h (by simp)
  | case6 st pb noff o htok po hpo =>
    rw [next_devtree_item, htok, hpo] at h
    injection h with h1 h2
    injection h1 with h3
    subst h2
    subst h3
    exact ⟨hpo, rfl⟩
  | case7 st o htok ih =>
    rw [next_devtree_item, htok] at h
    have hr := ih h
    simp only at hr
    exact absurd hr.1 (by simp)
  | case8 st o htok ih =>
    rw [next_devtree_item, htok] at h
    have hr := ih h
    simp only at hr
    exact ⟨hr.1, hr.2⟩

theorem find_prop_loop_congr {buf : Buf} {s : List Nat} {st st' : DevTreeIterSt}
    (h : next_prop buf st = next_prop buf st') :
    find_prop_loop buf s st = find_prop_loop buf s st' := by
  cases hm : next_prop buf st' with
  | panicked =>
    rw [find_prop_loop_of_panicked (h.trans hm), find_prop_loop_of_panicked hm]
  | halt =>
    rw [find_prop_loop_of_halt (h.trans hm), find_prop_loop_of_halt hm]
  | found p st2 =>
    by_cases hc : compat_pred buf s p = .ok true
    · rw [find_prop_loop_of_found_true (h.trans hm) hc, find_prop_loop_of_found_true hm hc]
    · rw [find_prop_loop_of_found_skip (h.trans hm) hc, find_prop_loop_of_found_skip hm hc]

theorem compat_pred_spec {buf : Buf} {s : List Nat} {p : PropH} :
    compat_pred buf s p = .ok true ↔ spec_compat buf s p = true := by
  unfold compat_pred spec_compat
  cases hn : prop_name buf p with
  | error e => simp
  | ok nm =>
    by_cases hc : nm = compatibleBytes
    · subst hc
      cases hf : prop_first_string p.prop_buf with
      | error e => simp [hf]
      | ok bs => simp [hf]
    · simp [hc]

/-- `next_node` against the item stream: it never panics when the stream
ends cleanly; it returns `halt` exactly when no node item remains; and
the node it finds is the stream's first node item, with its stored
iterator state resuming the stream right after that item. -/
theorem next_node_split {buf : Buf} : ∀ (fuel : Nat) (st : DevTreeIterSt),
    buf.length - st.offset < fuel →
    (items_from buf st).2 = .ended →
    next_node buf st ≠ .panicked ∧
    (next_node buf st = .halt → spec_after_one_node (items_from buf st).1 = none) ∧
    (∀ m st', next_node buf st = .found m st' →
      st' = m.after ∧
      spec_after_one_node (items_from buf st).1 = some (items_from buf m.after).1 ∧
      (items_from buf m.after).2 = .ended ∧
      Item.node m ∈ (items_from buf st).1 ∧
      (∀ i, i ∈ (items_from buf m.after).1 → i ∈ (items_from buf st).1) ∧
      st.offset ≤ m.beginOff ∧
      m.after.parentOff = some m.beginOff ∧
      m.beginOff < m.after.offset ∧
      next_devtree_token buf m.beginOff = .ok (.beginNode m.name) m.after.offset) := by
  intro fuel
  induction fuel with
  | zero => intro st hf; omega
  | succ k ih =>
    intro st hf hend
    cases hi : next_devtree_item buf st with
    | panicked =>
      rw [items_from_eq_panicked hi] at hend
      exact absurd hend (by simp)
    | halt s2 =>
      refine ⟨by rw [next_node_of_halt hi]; simp, ?_, ?_⟩
      · intro _
        rw [items_from_eq_halt hi]
        rfl
      · intro m st' hfound
        rw [next_node_of_halt hi] at hfound
        exact absurd hfound (by simp)
    | item i s' =>
      have hlt := next_devtree_item_lt hi
      rw [items_from_eq_item hi] at hend
      cases i with
      | node n =>
        obtain ⟨hs', hle, hpar, hbo, htok⟩ := item_node_shape hi
        subst hs'
        refine ⟨by rw [next_node_of_item_node hi]; simp, ?_, ?_⟩
        · intro hh
          rw [next_node_of_item_node hi] at hh
          exact absurd hh (by simp)
        · intro m st' hfound
          rw [next_node_of_item_node hi] at hfound
          injection hfound with h1 h2
          subst h1
          subst h2
          rw [items_from_eq_item hi]
          exact ⟨rfl, rfl, hend, List.mem_cons_self _ _,
            fun i hmem => List.mem_cons_of_mem _ hmem, hle, hpar, hbo, htok⟩
      | prop q =>
        have hr := ih s' (by omega) hend
        have hnn : next_node buf st = next_node buf s' := next_node_of_item_prop hi
        refine ⟨by rw [hnn]; exact hr.1, ?_, ?_⟩
        · intro hh
          rw [hnn] at hh
          rw [items_from_eq_item hi]
          exact hr.2.1 hh
        · intro m st' hfound
          rw [hnn] at hfound
          obtain ⟨e1, e2, e3, e4, e5, e6, e7, e8, e9⟩ := hr.2.2 m st' hfound
          rw [items_from_eq_item hi]
          exact ⟨e1, e2, e3, List.mem_cons_of_mem _ e4,
            fun i hmem => List.mem_cons_of_mem _ (e5 i hmem), by omega, e7, e8, e9⟩

/-- The owner a found property points back to: a node known to lie in
the given item list, at or after a base offset, whose BEGIN token
re-parses to the node itself. -/
def owner_witness (buf : Buf) (allItems : List Item) (base : Nat) (po : Nat) : Prop :=
  ∃ m : NodeH, m.beginOff = po ∧ Item.node m ∈ allItems ∧ base ≤ m.beginOff ∧
    m.after.parentOff = some m.beginOff ∧ m.beginOff < m.after.offset ∧
    next_devtree_token buf m.beginOff = .ok (.beginNode m.name) m.after.offset

/-- The compatible-property scan against the item stream: it never
panics when the stream ends cleanly, returns `halt` exactly when no
matching property item remains, and otherwise finds the stream's first
matching property, whose recorded parent offset belongs to an owner
node. -/
theorem find_prop_spec {buf : Buf} (s : List Nat) {allItems : List Item} {base : Nat} :
    ∀ (fuel : Nat) (st : DevTreeIterSt),
    buf.length - st.offset < fuel →
    (items_from buf st).2 = .ended →
    base ≤ st.offset →
    (∀ i, i ∈ (items_from buf st).1 → i ∈ allItems) →
    (∀ po, st.parentOff = some po → owner_witness buf allItems base po) →
    find_prop_loop buf s st ≠ .panicked ∧
    (find_prop_loop buf s st = .halt →
      spec_first_compat buf s (items_from buf st).1 = none) ∧
    (∀ p st', find_prop_loop buf s st = .found p st' →
      spec_first_compat buf s (items_from buf st).1 = some p ∧
      owner_witness buf allItems base p.parentOff) := by
  intro fuel
  induction fuel with
  | zero => intro st hf; omega
  | succ k ih =>
    intro st hf hend hbase hsub howner
    cases hi : next_devtree_item buf st with
    | panicked =>
      rw [items_from_eq_panicked hi] at hend
      exact absurd hend (by simp)
    | halt s2 =>
      have hnp : next_prop buf st = .halt := next_prop_of_halt hi
      refine ⟨by rw [find_prop_loop_of_halt hnp]; simp, ?_, ?_⟩
      · intro _
        rw [items_from_eq_halt hi]
        rfl
      · intro p st' hfound
        rw [find_prop_loop_of_halt hnp] at hfound
        exact absurd hfound (by simp)
    | item i s' =>
      have hlt := next_devtree_item_lt hi
      rw [items_from_eq_item hi] at hend
      have hsub' : ∀ j, j ∈ (items_from buf s').1 → j ∈ allItems := by
        intro j hmem
        exact hsub j (by rw [items_from_eq_item hi]; exact List.mem_cons_of_mem _ hmem)
      cases i with
      | node n =>
        obtain ⟨hs', hle, hpar, hbo, htok⟩ := item_node_shape hi
        have hown' : ∀ po, s'.parentOff = some po → owner_witness buf allItems base po := by
          intro po hpo
          rw [hs', hpar] at hpo
          injection hpo with hpo2
          exact ⟨n, hpo2, hsub _ (by rw [items_from_eq_item hi]; exact List.mem_cons_self _ _),
            by omega, hpar, hbo, htok⟩
        have hcg : find_prop_loop buf s st = find_prop_loop buf s s' :=
          find_prop_loop_congr (next_prop_of_item_node hi)
        have hr := ih s' (by omega) hend (by omega) hsub' hown'
        refine ⟨by rw [hcg]; exact hr.1, ?_, ?_⟩
        · intro hh
          rw [hcg] at hh
          rw [items_from_eq_item hi]
          exact hr.2.1 hh
        · intro p st' hfound
          rw [hcg] at hfound
          obtain ⟨e1, e2⟩ := hr.2.2 p st' hfound
          rw [items_from_eq_item hi]
          exact ⟨e1, e2⟩
      | prop q =>
        have hsp := item_prop_shape hi
        have hnp : next_prop buf st = .found q s' := next_prop_of_item_prop hi
        by_cases hc : compat_pred buf s q = .ok true
        · have hft : find_prop_loop buf s st = .found q s' :=
            find_prop_loop_of_found_true hnp hc
          have hsc : spec_compat buf s q = true := compat_pred_spec.mp hc
          refine ⟨by rw [hft]; simp, ?_, ?_⟩
          · intro hh
            rw [hft] at hh
            exact absurd hh (by simp)
          · intro p st' hfound
            rw [hft] at hfound
            injection hfound with h1 h2
            subst h1
            refine ⟨?_, howner q.parentOff hsp.1⟩
            rw [items_from_eq_item hi]
            show spec_first_compat buf s (Item.prop q :: (items_from buf s').1) = some q
            simp [spec_first_compat, hsc]
        · have hfs : find_prop_loop buf s st = find_prop_loop buf s s' :=
            find_prop_loop_of_found_skip hnp hc
          have hsc : spec_compat buf s q = false := by
            cases hx : spec_compat buf s q with
            | false => rfl
            | true => exact absurd (compat_pred_spec.mpr hx) hc
          have hown' : ∀ po, s'.parentOff = some po → owner_witness buf allItems base po := by
            intro po hpo
            rw [hsp.2] at hpo
            injection hpo with hpo2
            rw [← hpo2]
            exact howner q.parentOff hsp.1
          have hr := ih s' (by omega) hend (by omega) hsub' hown'
          refine ⟨by rw [hfs]; exact hr.1, ?_, ?_⟩
          · intro hh
            rw [hfs] at hh
            rw [items_from_eq_item hi]
            show spec_first_compat buf s (Item.prop q :: (items_from buf s').1) = none
            simpa [spec_first_compat, hsc] using hr.2.1 hh
          · intro p st' hfound
            rw [hfs] at hfound
            obtain ⟨e1, e2⟩ := hr.2.2 p st' hfound
            rw [items_from_eq_item hi]
            refine ⟨?_, e2⟩
            show spec_first_compat buf s (Item.prop q :: (items_from buf s').1) = some p
            simpa [spec_first_compat, hsc] using e1

/-- C5: on any cursor whose item stream ends cleanly,
`find_next_compatible_node(s)` never panics; it returns `None` exactly
when, after advancing past one node, no later property in document order
has name "compatible" and first string value `s`; and when it returns a
node, that node is the owner (the node whose BEGIN offset the first such
matching property records as its parent) — a node item of the stream
lying at or after the cursor, whose stored iterator sits strictly past
its BEGIN offset with itself as parent, so that a repeated call from the
returned node's cursor only ever returns nodes strictly later in
document order. -/
theorem c5_find_next_compatible_node {buf : Buf} {s : List Nat} {st : DevTreeIterSt}
    (hend : (items_from buf st).2 = .ended) :
    find_next_compatible_node buf s st ≠ .panicked ∧
    (find_next_compatible_node buf s st = .notFound ↔
      spec_find_next_compatible buf s (items_from buf st).1 = none) ∧
    (∀ n, find_next_compatible_node buf s st = .found n →
      ∃ p, spec_find_next_compatible buf s (items_from buf st).1 = some p ∧
        n.beginOff = p.parentOff ∧
        Item.node n ∈ (items_from buf st).1 ∧
        st.offset ≤ n.beginOff ∧
        n.beginOff < n.after.offset ∧
        n.after.parentOff = some n.beginOff) := by
  have hns := next_node_split (buf.length - st.offset + 1) st (by omega) hend
  cases hnn : next_node buf st with
  | panicked => exact absurd hnn hns.1
  | halt =>
    have hfc : find_next_compatible_node buf s st = .notFound := by
      unfold find_next_compatible_node
      rw [hnn]
    have hafter := hns.2.1 hnn
    have hsf : spec_find_next_compatible buf s (items_from buf st).1 = none := by
      unfold spec_find_next_compatible
      rw [hafter]
      rfl
    refine ⟨by rw [hfc]; simp, ⟨fun _ => hsf, fun _ => hfc⟩, ?_⟩
    intro n hh
    rw [hfc] at hh
    exact absurd hh (by simp)
  | found m st1 =>
    obtain ⟨e1, e2, e3, e4, e5, e6, e7, e8, e9⟩ := hns.2.2 m st1 hnn
    subst e1
    have hown : ∀ po, m.after.parentOff = some po →
        owner_witness buf (items_from buf st).1 st.offset po := by
      intro po hpo
      rw [e7] at hpo
      injection hpo with h2
      exact ⟨m, h2, e4, e6, e7, e8, e9⟩
    have hscan := find_prop_spec s (buf.length - m.after.offset + 1) m.after (by omega) e3
      (by omega) e5 hown
    have hfc : find_next_compatible_node buf s st =
        (match find_prop_loop buf s m.after with
         | .panicked => .panicked
         | .halt => .notFound
         | .found p _ => prop_node buf p) := by
      unfold find_next_compatible_node
      rw [hnn]
    cases hfl : find_prop_loop buf s m.after with
    | panicked => exact absurd hfl hscan.1
    | halt =>
      have hfc2 : find_next_compatible_node buf s st = .notFound := by
        rw [hfc, hfl]
      have hnone := hscan.2.1 hfl
      have hsf : spec_find_next_compatible buf s (items_from buf st).1 = none := by
        unfold spec_find_next_compatible
        rw [e2]
        exact hnone
      refine ⟨by rw [hfc2]; simp, ⟨fun _ => hsf, fun _ => hfc2⟩, ?_⟩
      intro n hh
      rw [hfc2] at hh
      exact absurd hh (by simp)
    | found p st2 =>
      obtain ⟨hfirst, m2, hm2po, hm2mem, hm2base, hm2par, hm2bo, hm2tok⟩ :=
        hscan.2.2 p st2 hfl
      have heta : (⟨m2.after.offset, some m2.beginOff⟩ : DevTreeIterSt) = m2.after := by
        rw [← hm2par]
      have hnode2 : (⟨m2.name, m2.beginOff, ⟨m2.after.offset, some m2.beginOff⟩⟩ : NodeH) =
          m2 := by
        rw [heta]
      have hpn : prop_node buf p = .found m2 := by
        unfold prop_node
        have htk : next_devtree_token buf p.parentOff =
            .ok (.beginNode m2.name) m2.after.offset := by
          rw [← hm2po]
          exact hm2tok
        have hitem : next_devtree_item buf ⟨p.parentOff, some p.parentOff⟩ =
            .item (.node ⟨m2.name, p.parentOff, ⟨m2.after.offset, some p.parentOff⟩⟩)
              ⟨m2.after.offset, some p.parentOff⟩ := next_devtree_item_of_begin htk
        rw [next_node_of_item_node hitem]
        rw [← hm2po]
        rw [hnode2]
      have hfc2 : find_next_compatible_node buf s st = .found m2 := by
        rw [hfc, hfl]
        show prop_node buf p = .found m2
        exact hpn
      have hsf : spec_find_next_compatible buf s (items_from buf st).1 = some p := by
        unfold spec_find_next_compatible
        rw [e2]
        exact hfirst
      refine ⟨by rw [hfc2]; simp, ?_, ?_⟩
      · constructor
        · intro hh
          rw [hfc2] at hh
          exact absurd hh (by simp)
        · intro hspec
          exact absurd (hsf.symm.trans hspec) (by simp)
      · intro n hn
        rw [hfc2] at hn
        injection hn with h2
        subst h2
        exact ⟨p, hsf, hm2po, hm2mem, hm2base, hm2bo, hm2par⟩

/-- An 83-byte device tree: one root node with empty name and a single
property `compatible = "y"` (struct block `BEGIN ""; PROP len=2
nameoff=0; END_NODE; END`), strings block "compatible\0" at offset 72.
totalsize 83, off_dt_struct 40, off_dt_strings 72. -/
def bufC5 : Buf :=
  [0xd0, 0x0d, 0xfe, 0xed, 0, 0, 0, 83,
   0, 0, 0, 40, 0, 0, 0, 72, 0, 0, 0, 32,
   0, 0, 0, 0, 0, 0, 0, 0, 0, 0, 0, 0,
   0, 0, 0, 0, 0, 0, 0, 0,
   0, 0, 0, 1, 0, 0, 0, 0,
   0, 0, 0, 3, 0, 0, 0, 2, 0, 0, 0, 0, 121, 0, 0, 0,
   0, 0, 0, 2,
   0, 0, 0, 9,
   99, 111, 109, 112, 97, 116, 105, 98, 108, 101, 0]

theorem items_c5_eval : items_from bufC5 ⟨40, none⟩ =
    ([.node ⟨[], 40, ⟨48, some 40⟩⟩, .prop ⟨40, [121, 0], 0⟩], .ended) := by
  have i1 : next_devtree_item bufC5 ⟨40, none⟩ =
      .item (.node ⟨[], 40, ⟨48, some 40⟩⟩) ⟨48, some 40⟩ := by
    rw [next_devtree_item]; decide
  have i2 : next_devtree_item bufC5 ⟨48, some 40⟩ =
      .item (.prop ⟨40, [121, 0], 0⟩) ⟨64, some 40⟩ := by
    rw [next_devtree_item]; decide
  have i3 : next_devtree_item bufC5 ⟨64, some 40⟩ = .halt ⟨72, none⟩ := by
    rw [next_devtree_item_step_endNode
        (show next_devtree_token bufC5 64 = .ok .endNode 68 by decide)]
    rw [next_devtree_item]; decide
  rw [items_from_eq_item i1, items_from_eq_item i2, items_from_eq_halt i3]

/-- Witness for `c5_find_next_compatible_node`: the single-node tree
with `compatible = "y"` has a cleanly ending item stream, so the theorem
applies to a search for "y" from the start of the struct block. -/
theorem c5_find_next_compatible_node_witness :
    (items_from bufC5 ⟨40, none⟩).2 = .ended ∧
    (find_next_compatible_node bufC5 [121] ⟨40, none⟩ ≠ .panicked ∧
     (find_next_compatible_node bufC5 [121] ⟨40, none⟩ = .notFound ↔
       spec_find_next_compatible bufC5 [121] (items_from bufC5 ⟨40, none⟩).1 = none) ∧
     (∀ n, find_next_compatible_node bufC5 [121] ⟨40, none⟩ = .found n →
       ∃ p, spec_find_next_compatible bufC5 [121] (items_from bufC5 ⟨40, none⟩).1 = some p ∧
         n.beginOff = p.parentOff ∧
         Item.node n ∈ (items_from bufC5 ⟨40, none⟩).1 ∧
         (⟨40, none⟩ : DevTreeIterSt).offset ≤ n.beginOff ∧
         n.beginOff < n.after.offset ∧
         n.after.parentOff = some n.beginOff)) :=
  ⟨by rw [items_c5_eval], c5_find_next_compatible_node (by rw [items_c5_eval])⟩
